import Mathlib

/-! # Limit order book

A shallow embedding of the five variants of the order book
(`list.cpp`, `c_list.cpp`, `map.cpp`, `c_map.cpp`, `map_v2.cpp`).

* A price is a C++ `double` read from a JSON number.  The code only compares
  prices (`<`, `>`, `==`) and never does arithmetic on them, and a JSON number is
  never NaN or infinite, so a price is modelled by the rational number it denotes.
* A quantity is a C++ `int`; the code only compares it with `0`, so it is an `Int`.
* `time` is an `unsigned long`, modelled by `Nat`.
* A failed rapidjson type assertion (for instance `GetInt()` on a value that is
  not an int) and a dereferenced end iterator are modelled by `none`.
-/

namespace LOB

/-- A stored level, `std::pair<double, int>`: price first, quantity second. -/
abbrev Level := ℚ × Int

/-- The enumeration `enum class Event { undef, error, ping, update, snapshot }`. -/
inductive Event where
  | undef
  | error
  | ping
  | update
  | snapshot
  deriving DecidableEq, Repr

/-! ## The JSON document (rapidjson) -/

/-- A rapidjson value.  `int` is a number written without fraction or exponent
that fits in 64 bits, `double` a number that rapidjson stores as a double (a
longer integer literal is one of them). -/
inductive Value where
  | null
  | bool (b : Bool)
  | int (i : Int)
  | double (d : ℚ)
  | str (s : String)
  | arr (a : List Value)
  | obj (m : List (String × Value))

/-- The method `Value::IsInt()`: the number is an integer that fits in 32 bits. -/
def Value.IsInt : Value → Bool
  | .int i => decide (-2147483648 ≤ i ∧ i ≤ 2147483647)
  | _ => false

/-- The method `Value::IsDouble()`. -/
def Value.IsDouble : Value → Bool
  | .double _ => true
  | _ => false

/-- The method `Value::GetInt()`, which asserts `IsInt()`. -/
def Value.GetInt (v : Value) : Option Int :=
  match v with
  | .int i => if v.IsInt then some i else none
  | _ => none

/-- The method `Value::GetUint64()`, which asserts that the number is an unsigned 64-bit integer. -/
def Value.GetUint64 : Value → Option Nat
  | .int i => if 0 ≤ i ∧ i < 18446744073709551616 then some i.toNat else none
  | _ => none

/-- The conversion of a 64-bit natural number to `double`: exact below `2^53`,
otherwise rounded to 53 significant bits, to the nearest and on a tie to the
even one. -/
def double_of_nat (n : Nat) : Nat :=
  if n < 9007199254740992 then n
  else
    let e := Nat.log2 n - 52
    let q := n / 2 ^ e
    let r := n % 2 ^ e
    if 2 ^ e < 2 * r ∨ (2 * r = 2 ^ e ∧ q % 2 = 1) then (q + 1) * 2 ^ e else q * 2 ^ e

/-- The method `Value::GetDouble()`, which asserts that the value is a number.  A
64-bit integer is converted to `double`, which rounds it beyond `2^53`. -/
def Value.GetDouble : Value → Option ℚ
  | .double d => some d
  | .int i =>
    if -9223372036854775808 ≤ i ∧ i < 18446744073709551616 then
      some (if 0 ≤ i then (double_of_nat i.toNat : ℚ) else -(double_of_nat (-i).toNat : ℚ))
    else none
  | _ => none

/-- The method `Value::GetString()`. -/
def Value.GetString : Value → Option String
  | .str s => some s
  | _ => none

/-- The method `Value::GetArray()`. -/
def Value.GetArray : Value → Option (List Value)
  | .arr a => some a
  | _ => none

/-- The method `Value::HasMember(name)`, which asserts that the value is an object. -/
def Value.HasMember (v : Value) (name : String) : Option Bool :=
  match v with
  | .obj m => some (m.any (fun kv => kv.1 == name))
  | _ => none

/-- The expression `value[name]`: the first member of that name; asserts that there is one. -/
def Value.member (v : Value) (name : String) : Option Value :=
  match v with
  | .obj m => m.lookup name
  | _ => none

/-- The expression `value[i]`: the element at index `i` of an array; asserts that there is one. -/
def Value.elem (v : Value) (i : Nat) : Option Value :=
  match v with
  | .arr a => a.get? i
  | _ => none

/-- The expression `value == "text"`: true exactly for the string value with that text. -/
def Value.eqStr (v : Value) (s : String) : Bool :=
  match v with
  | .str t => t == s
  | _ => false

/-- A `rapidjson::Document` after `Parse`: the parse error message when
`HasParseError()`, and the root value. -/
structure Document where
  parseError : Option String
  root : Value

/-! ## Message validation: `check_data` (the same in all five files) -/

/-- The array `const std::string members[3]`. -/
def members : List String := ["ch", "ts", "tick"]

/-- The array `const std::string tick_members[3]`. -/
def tick_members : List String := ["asks", "bids", "event"]

/-- The loops `for (const auto& v : members) if (HasMember(v)) continue; else return ...`:
the first name that `holder` lacks, `some none` when it has them all. -/
def first_missing (holder : Value) : List String → Option (Option String)
  | [] => some none
  | v :: rest =>
    match holder.HasMember v with
    | none => none
    | some true => first_missing holder rest
    | some false => some (some v)

/-- The loop `for (const auto& v : array) if (!v[1].IsInt() && !v[0].IsDouble()) return error`:
`some true` when it returns the value error, `some false` when it runs to the end. -/
def value_error : List Value → Option Bool
  | [] => some false
  | v :: rest =>
    match v.elem 1 with
    | none => none
    | some v1 =>
      if !v1.IsInt then
        match v.elem 0 with
        | none => none
        | some v0 => if !v0.IsDouble then some true else value_error rest
      else value_error rest

/-- The function `check_data(document)`. -/
def check_data (document : Document) : Option (Event × String) :=
  match document.parseError with
  | some msg => some (Event.error, "error: " ++ msg)
  | none =>
    match document.root.HasMember "ping" with
    | none => none
    | some true => some (Event.ping, "ping")
    | some false =>
      match first_missing document.root members with
      | none => none
      | some (some v) => some (Event.error, "error: no member: " ++ v)
      | some none =>
        match document.root.member "tick" with
        | none => none
        | some tick =>
          match first_missing tick tick_members with
          | none => none
          | some (some v) => some (Event.error, "error: no member: " ++ v)
          | some none =>
            match (tick.member "asks").bind Value.GetArray with
            | none => none
            | some asks =>
              match value_error asks with
              | none => none
              | some true => some (Event.error, "value error")
              | some false =>
                -- the second loop of the source runs over `asks` again
                match value_error asks with
                | none => none
                | some true => some (Event.error, "value error")
                | some false =>
                  match tick.member "event" with
                  | none => none
                  | some ev =>
                    if ev.eqStr "snapshot" then some (Event.snapshot, "success")
                    else some (Event.update, "success: ")

/-! ## The content of an accepted message -/

/-- What `set_snapshot` and `update_snapshot` read from the document `respond`:
`respond["ts"].GetUint64()`, `respond["ch"].GetString()`, and for every element
`v` of `respond["tick"]["asks"]` and of `respond["tick"]["bids"]` the pair
`(v[0].GetDouble(), v[1].GetInt())`, in document order. -/
structure Respond where
  ts : Nat
  ch : String
  asks : List Level
  bids : List Level

/-- One array element `v` read as `(v[0].GetDouble(), v[1].GetInt())`. -/
def read_level (v : Value) : Option Level :=
  match (v.elem 0).bind Value.GetDouble, (v.elem 1).bind Value.GetInt with
  | some p, some q => some (p, q)
  | _, _ => none

/-- All elements of an array read as levels; `none` as soon as one getter fails. -/
def read_levels : List Value → Option (List Level)
  | [] => some []
  | v :: rest =>
    match read_level v, read_levels rest with
    | some l, some ls => some (l :: ls)
    | _, _ => none

/-- One element `v` of an array as the loops of `set_snapshot` and of `fill_data`
read it: `v[1].GetInt()` comes first, and a zero quantity skips the element
before its price is read (`some none`); otherwise `v[0].GetDouble()` gives the
price.  The result is `none` when a getter fails its assertion. -/
def read_nonzero_level (v : Value) : Option (Option Level) :=
  match (v.elem 1).bind Value.GetInt with
  | none => none
  | some q =>
    if q == 0 then some none
    else
      match (v.elem 0).bind Value.GetDouble with
      | none => none
      | some p => some (some (p, q))

/-- The elements of an array that the loops of `set_snapshot` and of `fill_data`
do not skip, as they read them, in document order; `none` when a getter fails. -/
def read_nonzero_levels : List Value → Option (List Level)
  | [] => some []
  | v :: rest =>
    match read_nonzero_level v, read_nonzero_levels rest with
    | some none, some ls => some ls
    | some (some l), some ls => some (l :: ls)
    | _, _ => none

/-- The array `document["tick"][side]`, through `GetArray()`. -/
def tick_array (document : Document) (side : String) : Option (List Value) :=
  ((document.root.member "tick").bind (fun t => t.member side)).bind Value.GetArray

/-- The document read in full: every getter on every field and on every element
of both arrays; `none` when one of them would fail its type assertion.  No
function of the source reads this much (`update_snapshot` and `fill_data` read
no `ch`, `set_snapshot` and `fill_data` read no price on a zero quantity); on a
document that `read` accepts, each of them reads what `read` returns. -/
def Respond.read (document : Document) : Option Respond :=
  match (document.root.member "ts").bind Value.GetUint64,
        (document.root.member "ch").bind Value.GetString,
        (((document.root.member "tick").bind (fun t => t.member "asks")).bind
          Value.GetArray).bind read_levels,
        (((document.root.member "tick").bind (fun t => t.member "bids")).bind
          Value.GetArray).bind read_levels with
  | some ts, some ch, some asks, some bids => some ⟨ts, ch, asks, bids⟩
  | _, _, _, _ => none

/-! ## Side orderings -/

/-- The comparator `std::less{}` on prices, the comparator of the ask side. -/
def less (a b : ℚ) : Bool := decide (a < b)

/-- The comparator `std::greater{}` on prices, the comparator of the bid side. -/
def greater (a b : ℚ) : Bool := decide (a > b)

/-- What the proofs use of a side ordering: it is a strict total order on prices. -/
structure SideOrder (comp : ℚ → ℚ → Bool) : Prop where
  irrefl : ∀ a, comp a a = false
  trans : ∀ a b c, comp a b = true → comp b c = true → comp a c = true
  total : ∀ a b, a ≠ b → comp a b = true ∨ comp b a = true

/-- The list is strictly monotonic by price under `comp`: every level ranks
strictly ahead of every later level. -/
def strictSorted (comp : ℚ → ℚ → Bool) (l : List Level) : Prop :=
  l.Pairwise (fun a b => comp a.1 b.1 = true)

instance (comp : ℚ → ℚ → Bool) (l : List Level) : Decidable (strictSorted comp l) := by
  unfold strictSorted
  infer_instance

/-- No level of the list has quantity 0. -/
def no_zero (l : List Level) : Prop := ∀ v ∈ l, v.2 ≠ 0

instance (l : List Level) : Decidable (no_zero l) := by
  unfold no_zero
  infer_instance

/-- Every zero-quantity entry of the diff `D` names a price that the ladder `S` holds. -/
def zeros_present (D S : List Level) : Prop :=
  ∀ d ∈ D, d.2 = 0 → d.1 ∈ S.map Prod.fst

instance (D S : List Level) : Decidable (zeros_present D S) := by
  unfold zeros_present
  infer_instance

/-- Membership in the overlay of the ladder `S` by the diff `D`: a non-zero entry
of `D`, or a level of `S` whose price `D` does not mention. -/
def in_overlay (S D : List Level) (x : Level) : Prop :=
  (x ∈ D ∧ x.2 ≠ 0) ∨ (x ∈ S ∧ x.1 ∉ D.map Prod.fst)

instance (S D : List Level) (x : Level) : Decidable (in_overlay S D x) := by
  unfold in_overlay
  infer_instance

/-- The list `R` is the strictly sorted list of the overlay of `S` by `D`. -/
def is_resolved (comp : ℚ → ℚ → Bool) (S D R : List Level) : Prop :=
  strictSorted comp R ∧ ∀ x, x ∈ R ↔ in_overlay S D x

/-- The feed contract of one ladder `S` and one diff `D` under the comparator
`comp`: both are strictly sorted, `S` stores no zero quantity, and every
zero-quantity entry of `D` names a price of `S`. -/
def ladder_contract (comp : ℚ → ℚ → Bool) (S D : List Level) : Prop :=
  strictSorted comp S ∧ no_zero S ∧ strictSorted comp D ∧ zeros_present D S

instance (comp : ℚ → ℚ → Bool) (S D : List Level) : Decidable (ladder_contract comp S D) := by
  unfold ladder_contract
  infer_instance

/-! ## The list-based book (`list.cpp`, `c_list.cpp`) -/

/-- The loop `for (v : array) { if (v[1].GetInt() == 0) continue; out.emplace_back(v[0], v[1]); }`
of `set_snapshot` and of `fill_data`, started on the container `out`. -/
def push_nonzero (out : List Level) (array : List Level) : List Level :=
  array.foldl (fun acc v => if v.2 == 0 then acc else acc ++ [(v.1, v.2)]) out

/-- The lambda `updater(doc, list, comp)` of `update_snapshot`.  The result is
the part of the ladder from the cursor `it` on, once the loops have run; what
lies before the cursor is never touched again.  The first two equations are the
exits of the `while` loop: with the diff used up the rest of the ladder stays,
with the ladder used up the `for` loop appends the rest of the diff. -/
def updater (doc : List Level) (list : List Level) (comp : ℚ → ℚ → Bool) : List Level :=
  match doc, list with
  | [], list => list
  | doc, [] => doc
  | pair :: doc, it :: list =>
    if comp pair.1 it.1 && pair.2 != 0 then
      (pair.1, pair.2) :: updater doc (it :: list) comp
    else if pair.1 == it.1 then
      if pair.2 == 0 then updater doc list comp
      else (it.1, pair.2) :: updater doc list comp
    else it :: updater (pair :: doc) list comp
termination_by doc.length + list.length

namespace ListCpp

/-- The data members of `Limit_order_book` in `list.cpp` (`c_list.cpp` has no `event`). -/
structure Limit_order_book where
  time : Nat
  chanel : String
  asks : List Level
  bids : List Level
  event : Event

/-- The book as default-constructed. -/
def empty : Limit_order_book := ⟨0, "", [], [], Event.undef⟩

/-- The function `set_snapshot(respond)`. -/
def set_snapshot (respond : Respond) (b : Limit_order_book) : Limit_order_book :=
  { b with
    time := respond.ts
    chanel := respond.ch
    asks := push_nonzero [] respond.asks
    bids := push_nonzero [] respond.bids }

/-- The function `update_snapshot(respond)`. -/
def update_snapshot (respond : Respond) (b : Limit_order_book) : Limit_order_book :=
  { b with
    time := respond.ts
    asks := updater respond.asks b.asks less
    bids := updater respond.bids b.bids greater }

/-- The function `get_best_ask()`: the level at `asks.cbegin()`; `none` when that is the end iterator. -/
def get_best_ask (b : Limit_order_book) : Option Level := b.asks.head?

/-- The function `get_best_bid()`: the level at `bids.cbegin()`; `none` when that is the end iterator. -/
def get_best_bid (b : Limit_order_book) : Option Level := b.bids.head?

/-- The function `get_time()`. -/
def get_time (b : Limit_order_book) : Nat := b.time

/-- A call of one of the two mutators. -/
inductive Call where
  | set_snapshot (respond : Respond)
  | update_snapshot (respond : Respond)

/-- The book after the call. -/
def Call.apply (c : Call) (b : Limit_order_book) : Limit_order_book :=
  match c with
  | .set_snapshot respond => ListCpp.set_snapshot respond b
  | .update_snapshot respond => ListCpp.update_snapshot respond b

/-- The payload of the call. -/
def Call.respond : Call → Respond
  | .set_snapshot respond => respond
  | .update_snapshot respond => respond

/-- The book after a sequence of calls. -/
def run (b : Limit_order_book) (calls : List Call) : Limit_order_book :=
  calls.foldl (fun b c => c.apply b) b

/-- The call carries sorted lists: asks strictly ascending, bids strictly descending. -/
def Call.sorted (c : Call) : Prop :=
  strictSorted less c.respond.asks ∧ strictSorted greater c.respond.bids

/-- The call keeps the feed contract on the book `b`: its lists are strictly
sorted and, for an update, every zero-quantity entry names a price that the
ladder of its side holds in `b`. -/
def Call.contract (c : Call) (b : Limit_order_book) : Prop :=
  match c with
  | .set_snapshot respond =>
    strictSorted less respond.asks ∧ strictSorted greater respond.bids
  | .update_snapshot respond =>
    strictSorted less respond.asks ∧ strictSorted greater respond.bids ∧
    zeros_present respond.asks b.asks ∧ zeros_present respond.bids b.bids

/-- Every call of the sequence keeps the feed contract on the book it is applied to. -/
def feed_contract (b : Limit_order_book) : List Call → Prop
  | [] => True
  | c :: cs => c.contract b ∧ feed_contract (c.apply b) cs

end ListCpp

/-! ## `std::map<double, int, Compare>` -/

namespace StdMap

/-- The expression `m[k] = v` on the in-order sequence of the nodes of the map: the node of key
`k` gets the value `v`, or a new node is linked in at the place of `k`. -/
def assign (comp : ℚ → ℚ → Bool) (k : ℚ) (v : Int) : List Level → List Level
  | [] => [(k, v)]
  | n :: m =>
    if k == n.1 then (n.1, v) :: m
    else if comp k n.1 then (k, v) :: n :: m
    else n :: assign comp k v m

/-- The call `m.erase(k)`: the node of key `k`, if there is one, is unlinked. -/
def erase (k : ℚ) (m : List Level) : List Level :=
  m.filter (fun n => n.1 != k)

end StdMap

namespace MapCpp

/-- The data members of `Limit_order_book` in `map.cpp` (`c_map.cpp` has no
`event`); a map is held as the in-order sequence of its nodes. -/
structure Limit_order_book where
  time : Nat
  chanel : String
  asks : List Level
  bids : List Level
  event : Event

/-- The book as default-constructed. -/
def empty : Limit_order_book := ⟨0, "", [], [], Event.undef⟩

/-- The loop `for (v : array) { if (v[1].GetInt() == 0) continue; m[v[0]] = v[1]; }`. -/
def snapshot_loop (comp : ℚ → ℚ → Bool) (m : List Level) (array : List Level) : List Level :=
  array.foldl (fun m v => if v.2 == 0 then m else StdMap.assign comp v.1 v.2 m) m

/-- The loop `for (v : array) { if (v[1].GetInt() == 0) { m.erase(v[0]); continue; } m[v[0]] = v[1]; }`. -/
def update_loop (comp : ℚ → ℚ → Bool) (m : List Level) (array : List Level) : List Level :=
  array.foldl
    (fun m v => if v.2 == 0 then StdMap.erase v.1 m else StdMap.assign comp v.1 v.2 m) m

/-- The function `set_snapshot(respond)`. -/
def set_snapshot (respond : Respond) (b : Limit_order_book) : Limit_order_book :=
  { b with
    time := respond.ts
    chanel := respond.ch
    asks := snapshot_loop less [] respond.asks
    bids := snapshot_loop greater [] respond.bids }

/-- The function `update_snapshot(respond)`. -/
def update_snapshot (respond : Respond) (b : Limit_order_book) : Limit_order_book :=
  { b with
    time := respond.ts
    asks := update_loop less b.asks respond.asks
    bids := update_loop greater b.bids respond.bids }

/-- The function `get_best_ask()`: the node at `asks.cbegin()`. -/
def get_best_ask (b : Limit_order_book) : Option Level := b.asks.head?

/-- The function `get_best_bid()`: the node at `bids.cbegin()`. -/
def get_best_bid (b : Limit_order_book) : Option Level := b.bids.head?

/-- The function `get_time()`. -/
def get_time (b : Limit_order_book) : Nat := b.time

end MapCpp

/-! ## The two-stage variant (`map_v2.cpp`) -/

namespace MapV2

/-- The data members of `Processed_data`; its `Event_type` is the enumeration
`Event` under another name. -/
structure Processed_data where
  event : Event
  time : Nat
  asks : List Level
  bids : List Level

/-- The function `fill_data(document)`. -/
def fill_data (document : Respond) (self : Processed_data) : Processed_data :=
  { self with
    time := document.ts
    asks := push_nonzero self.asks document.asks
    bids := push_nonzero self.bids document.bids }

/-- The function `fill_data(document)` on the document itself: it reads `ts`
through `GetUint64()` and of both arrays the elements of non-zero quantity; it
reads no `ch`.  The result is `none` when a getter fails its assertion. -/
def fill_data_doc (document : Document) (self : Processed_data) : Option Processed_data :=
  match (document.root.member "ts").bind Value.GetUint64,
        (tick_array document "asks").bind read_nonzero_levels,
        (tick_array document "bids").bind read_nonzero_levels with
  | some ts, some asks, some bids => some (fill_data ⟨ts, "", asks, bids⟩ self)
  | _, _, _ => none

/-- The constructor `Processed_data(str)`, from the parsed document on. -/
def Processed_data.ctor (document : Document) : Option Processed_data :=
  match check_data document with
  | none => none
  | some (ev, _) =>
    match ev with
    | Event.error => some ⟨Event.error, 0, [], []⟩
    | Event.ping => some ⟨Event.ping, 0, [], []⟩
    | Event.snapshot => fill_data_doc document ⟨Event.snapshot, 0, [], []⟩
    | Event.update => fill_data_doc document ⟨Event.update, 0, [], []⟩
    | Event.undef => some ⟨Event.undef, 0, [], []⟩

/-- The data members of `Limit_order_book` in `map_v2.cpp`. -/
structure Limit_order_book where
  time : Nat
  asks : List Level
  bids : List Level

/-- The book as default-constructed. -/
def empty : Limit_order_book := ⟨0, [], []⟩

/-- The loop `for (v : vector) { if (v.first == 0) continue; m[v.first] = v.second; }`. -/
def snapshot_loop (comp : ℚ → ℚ → Bool) (m : List Level) (vector : List Level) : List Level :=
  vector.foldl (fun m v => if v.1 == 0 then m else StdMap.assign comp v.1 v.2 m) m

/-- The loop `for (v : vector) { if (v.first == 0) { m.erase(v.first); continue; } m[v.first] = v.second; }`. -/
def update_loop (comp : ℚ → ℚ → Bool) (m : List Level) (vector : List Level) : List Level :=
  vector.foldl
    (fun m v => if v.1 == 0 then StdMap.erase v.1 m else StdMap.assign comp v.1 v.2 m) m

/-- The function `set_snapshot(respond)`. -/
def set_snapshot (respond : Processed_data) (b : Limit_order_book) : Limit_order_book :=
  { b with
    time := respond.time
    asks := snapshot_loop less [] respond.asks
    bids := snapshot_loop greater [] respond.bids }

/-- The function `update_snapshot(respond)`. -/
def update_snapshot (respond : Processed_data) (b : Limit_order_book) : Limit_order_book :=
  { b with
    time := respond.time
    asks := update_loop less b.asks respond.asks
    bids := update_loop greater b.bids respond.bids }

/-- The function `get_best_ask()`: the node at `asks.cbegin()`. -/
def get_best_ask (b : Limit_order_book) : Option Level := b.asks.head?

/-- The function `get_best_bid()`: the node at `bids.cbegin()`. -/
def get_best_bid (b : Limit_order_book) : Option Level := b.bids.head?

end MapV2

/-- Both ladders of the list-based book are strictly sorted under their side's
ordering and store no zero quantity. -/
def ListCpp.ladders_ok (b : ListCpp.Limit_order_book) : Prop :=
  strictSorted less b.asks ∧ strictSorted greater b.bids ∧ no_zero b.asks ∧ no_zero b.bids

/-! ## Message dispatch: `process_data` (`list.cpp`) -/

/-- The function `set_snapshot(respond)` on the document itself: it reads `ts`
through `GetUint64()`, `ch` through `GetString()`, and of both arrays the
elements of non-zero quantity; `none` when a getter fails its assertion. -/
def ListCpp.set_snapshot_doc (respond : Document) (b : ListCpp.Limit_order_book) :
    Option ListCpp.Limit_order_book :=
  match (respond.root.member "ts").bind Value.GetUint64,
        (respond.root.member "ch").bind Value.GetString,
        (tick_array respond "asks").bind read_nonzero_levels,
        (tick_array respond "bids").bind read_nonzero_levels with
  | some ts, some ch, some asks, some bids => some (ListCpp.set_snapshot ⟨ts, ch, asks, bids⟩ b)
  | _, _, _, _ => none

/-- The function `update_snapshot(respond)` on the document itself: it reads `ts`
through `GetUint64()` and every element of both arrays through `GetDouble()` and
`GetInt()` (each diff entry is read in full by the time the updater consumes
it); it reads no `ch`, and the book keeps its `chanel`.  The result is `none`
when a getter fails its assertion. -/
def ListCpp.update_snapshot_doc (respond : Document) (b : ListCpp.Limit_order_book) :
    Option ListCpp.Limit_order_book :=
  match (respond.root.member "ts").bind Value.GetUint64,
        (tick_array respond "asks").bind read_levels,
        (tick_array respond "bids").bind read_levels with
  | some ts, some asks, some bids => some (ListCpp.update_snapshot ⟨ts, b.chanel, asks, bids⟩ b)
  | _, _, _ => none

/-- The function `process_data(str)` of `list.cpp`, from the parsed document on:
the event tag is set from the result of `check_data` and a snapshot or an update
goes on to `set_snapshot` or `update_snapshot`, which read the document through
the getters (`none` when `check_data` or a getter fails an assertion). -/
def ListCpp.process_data (document : Document) (b : ListCpp.Limit_order_book) :
    Option ListCpp.Limit_order_book :=
  match check_data document with
  | none => none
  | some (ev, _) =>
    match ev with
    | Event.error => some { b with event := Event.error }
    | Event.ping => some { b with event := Event.ping }
    | Event.snapshot => ListCpp.set_snapshot_doc document { b with event := Event.snapshot }
    | Event.update => ListCpp.update_snapshot_doc document { b with event := Event.update }
    | Event.undef => some b

/-! ## Properties of documents -/

/-- The value `holder` has every member named in `names`. -/
def has_all (holder : Value) (names : List String) : Prop :=
  ∀ n ∈ names, holder.HasMember n = some true

instance (holder : Value) (names : List String) : Decidable (has_all holder names) := by
  unfold has_all
  infer_instance

/-- The name `X` is the first of `names`, in their order, that `holder` lacks:
`holder` has every name listed before `X` and has no member `X`. -/
def first_absent (holder : Value) (names : List String) (X : String) : Prop :=
  ∃ before after, names = before ++ X :: after ∧ has_all holder before ∧
    holder.HasMember X = some false

/-- The pairs of a JSON array whose quantity is not 0, price first, in the order
received. -/
def nonzero_pairs (array : List Value) : List Level :=
  array.filterMap (fun v =>
    match (v.elem 0).bind Value.GetDouble, (v.elem 1).bind Value.GetInt with
    | some p, some q => if q = 0 then none else some (p, q)
    | _, _ => none)

/-- The array element `v` is a pair that `set_snapshot` can read: its quantity
is an int and, unless that is 0, its price is a number. -/
def readable_pair (v : Value) : Prop :=
  ∃ q, (v.elem 1).bind Value.GetInt = some q ∧
    (q ≠ 0 → ∃ p, (v.elem 0).bind Value.GetDouble = some p)

/-- The array element `v` passes the value test of `check_data`: it has an
element at index 1, and that one is an int or the element at index 0 is a double. -/
def element_passes (v : Value) : Prop :=
  ∃ v1, v.elem 1 = some v1 ∧
    (v1.IsInt = true ∨ ∃ v0, v.elem 0 = some v0 ∧ v0.IsDouble = true)

/-! ## Outcomes of a best-level query -/

/-- What a call of `get_best_ask()` or `get_best_bid()` can do.  The return type
`std::pair<double, int>` holds no error value and the bodies throw nothing and
test nothing: a call returns a pair, or it dereferences the end iterator of an
empty container, which is undefined.  `reports` is the outcome the code never has. -/
inductive Query_outcome where
  | returns (level : Level)
  | reports (error : String)
  | undefined

/-- The outcome of a query whose embedding gave `r`. -/
def query_outcome (r : Option Level) : Query_outcome :=
  match r with
  | some level => Query_outcome.returns level
  | none => Query_outcome.undefined

/-! ## Sequences of calls that keep a level on each side -/

/-- The number of zero-quantity entries of a diff. -/
def zero_count (D : List Level) : Nat := D.countP (fun d => d.2 == 0)

/-- The list carries a pair of non-zero quantity. -/
def has_level (l : List Level) : Prop := ∃ v ∈ l, v.2 ≠ 0

instance (l : List Level) : Decidable (has_level l) := by
  unfold has_level
  infer_instance

/-- Every update of the sequence carries, on each side, fewer zero-quantity
entries than the ladder of that side holds levels when the update is applied. -/
def ListCpp.updates_keep_levels (b : ListCpp.Limit_order_book) : List Respond → Prop
  | [] => True
  | r :: rs =>
    zero_count r.asks < b.asks.length ∧ zero_count r.bids < b.bids.length ∧
    ListCpp.updates_keep_levels (ListCpp.update_snapshot r b) rs

/-- The book after a sequence of `update_snapshot` calls. -/
def ListCpp.run_updates (b : ListCpp.Limit_order_book) (updates : List Respond) :
    ListCpp.Limit_order_book :=
  updates.foldl (fun b r => ListCpp.update_snapshot r b) b

/-! ## Sequences of calls on the map-based book -/

/-- A call of one of the two mutators of the map-based book. -/
inductive MapCpp.Call where
  | set_snapshot (respond : Respond)
  | update_snapshot (respond : Respond)

/-- The map-based book after the call. -/
def MapCpp.Call.apply (c : MapCpp.Call) (b : MapCpp.Limit_order_book) :
    MapCpp.Limit_order_book :=
  match c with
  | .set_snapshot respond => MapCpp.set_snapshot respond b
  | .update_snapshot respond => MapCpp.update_snapshot respond b

/-- The map-based book after a sequence of calls. -/
def MapCpp.run (b : MapCpp.Limit_order_book) (calls : List MapCpp.Call) :
    MapCpp.Limit_order_book :=
  calls.foldl (fun b c => c.apply b) b

/-! ## The iterations of the merge loop -/

/-- The four branches of the body of the `while` loop of `updater`: a new level
is inserted before the cursor, the level at the cursor is erased, its quantity
is overwritten, or only the ladder cursor advances. -/
inductive Branch where
  | insert
  | erase
  | overwrite
  | advance
  deriving DecidableEq, Repr

/-- One iteration of the `while` loop: the branch taken, the diff entry `*doc_it`
and the ladder level `*it` it was taken on. -/
structure Iteration where
  branch : Branch
  pair : Level
  it : Level

/-- The iterations of the `while` loop of `updater(doc, list, comp)`, in order:
the recursion of `updater`, recording the branch instead of the ladder. -/
def updater_trace (doc : List Level) (list : List Level) (comp : ℚ → ℚ → Bool) :
    List Iteration :=
  match doc, list with
  | [], _ => []
  | _ :: _, [] => []
  | pair :: doc, it :: list =>
    if comp pair.1 it.1 && pair.2 != 0 then
      ⟨Branch.insert, pair, it⟩ :: updater_trace doc (it :: list) comp
    else if pair.1 == it.1 then
      if pair.2 == 0 then ⟨Branch.erase, pair, it⟩ :: updater_trace doc list comp
      else ⟨Branch.overwrite, pair, it⟩ :: updater_trace doc list comp
    else ⟨Branch.advance, pair, it⟩ :: updater_trace (pair :: doc) list comp
termination_by doc.length + list.length

/-! ## The merge loop, one iteration at a time -/

/-- The state of `updater` between two iterations of its `while` loop: the part
of the ladder before the cursor `it`, the part from `it` on, and the part of the
diff from `doc_it` on. -/
structure Loop_state where
  front : List Level
  list : List Level
  doc : List Level

/-- One pass through `while (doc_it != doc.End() && it != list.end()) { ... }`:
`none` when the condition is false, otherwise the state after the body. -/
def loop_body (comp : ℚ → ℚ → Bool) (s : Loop_state) : Option Loop_state :=
  match s.doc, s.list with
  | pair :: doc, it :: list =>
    if comp pair.1 it.1 && pair.2 != 0 then
      some ⟨s.front ++ [(pair.1, pair.2)], it :: list, doc⟩
    else if pair.1 == it.1 then
      if pair.2 == 0 then some ⟨s.front, list, doc⟩
      else some ⟨s.front ++ [(it.1, pair.2)], list, doc⟩
    else some ⟨s.front ++ [it], list, pair :: doc⟩
  | _, _ => none

/-- The state after at most `n` iterations of the loop: it stops as soon as the
condition is false. -/
def loop_iterate (comp : ℚ → ℚ → Bool) : Nat → Loop_state → Loop_state
  | 0, s => s
  | n + 1, s =>
    match loop_body comp s with
    | some next => loop_iterate comp n next
    | none => s

/-- The ladder once `for (; doc_it != doc.End(); ++doc_it) list.emplace_back(...)`
has run on the state: the rest of the diff is put behind the ladder. -/
def Loop_state.tail_append (s : Loop_state) : List Level :=
  s.front ++ s.list ++ s.doc

/-- The state in which `updater(doc, list, comp)` leaves its `while` loop. -/
def loop_exit (comp : ℚ → ℚ → Bool) (list doc : List Level) : Loop_state :=
  loop_iterate comp (list.length + doc.length) ⟨[], list, doc⟩

/-! ## The last entry of a diff for a price -/

/-- The quantity of the last entry of `D` whose price is `k`, if `D` has one. -/
def last_quantity (D : List Level) (k : ℚ) : Option Int :=
  match D with
  | [] => none
  | d :: rest =>
    match last_quantity rest k with
    | some q => some q
    | none => if d.1 = k then some d.2 else none

/-! ## Concrete messages and call sequences -/

/-- The snapshot of scenario A as a document: asks `[[100.5,3],[101.0,5]]`,
bids `[[100.0,2],[99.5,4]]`, `ts` 1. -/
def scenario_A_doc : Document :=
  ⟨none, .obj [("ch", .str "market.depth"), ("ts", .int 1),
    ("tick", .obj [
      ("asks", .arr [.arr [.double 100.5, .int 3], .arr [.double 101.0, .int 5]]),
      ("bids", .arr [.arr [.double 100.0, .int 2], .arr [.double 99.5, .int 4]]),
      ("event", .str "snapshot")])]⟩

/-- The update of scenario B as a document: asks `[[100.5,0],[100.75,7]]`, no bids, `ts` 2. -/
def scenario_B_doc : Document :=
  ⟨none, .obj [("ch", .str "market.depth"), ("ts", .int 2),
    ("tick", .obj [
      ("asks", .arr [.arr [.double 100.5, .int 0], .arr [.double 100.75, .int 7]]),
      ("bids", .arr []),
      ("event", .str "update")])]⟩

/-- Scenario A as read by the getters. -/
def scenario_A : Respond := ⟨1, "market.depth", [(100.5, 3), (101.0, 5)], [(100.0, 2), (99.5, 4)]⟩

/-- Scenario B as read by the getters. -/
def scenario_B : Respond := ⟨2, "market.depth", [(100.5, 0), (100.75, 7)], []⟩

/-- Scenarios A and B run through `map_v2.cpp`: each message is made into a
`Processed_data`, the snapshot is set and the update applied. -/
def MapV2.scenario_AB : Option MapV2.Limit_order_book :=
  match MapV2.Processed_data.ctor scenario_A_doc, MapV2.Processed_data.ctor scenario_B_doc with
  | some a, some u => some (MapV2.update_snapshot u (MapV2.set_snapshot a MapV2.empty))
  | _, _ => none

/-- A snapshot with the single ask `[2.0, 1]` and the single bid `[1.0, 1]`, then
an update with the single ask `[1.0, 0]`: a deletion of a price that the ladder
does not hold. -/
def delete_absent_calls : List ListCpp.Call :=
  [.set_snapshot ⟨1, "market.depth", [(2.0, 1)], [(1.0, 1)]⟩,
   .update_snapshot ⟨2, "market.depth", [(1.0, 0)], []⟩]

/-- A snapshot message with the single ask `[2.0, 1]` and the single bid `[1.0, 1]`. -/
def one_level_snapshot_doc : Document :=
  ⟨none, .obj [("ch", .str "market.depth"), ("ts", .int 1),
    ("tick", .obj [
      ("asks", .arr [.arr [.double 2.0, .int 1]]),
      ("bids", .arr [.arr [.double 1.0, .int 1]]),
      ("event", .str "snapshot")])]⟩

/-- The message `one_level_snapshot_doc` as read by the getters. -/
def one_level_snapshot : Respond := ⟨1, "market.depth", [(2.0, 1)], [(1.0, 1)]⟩

/-- An update message whose only ask is `[3.0, 0]`. -/
def zero_update_doc : Document :=
  ⟨none, .obj [("ch", .str "market.depth"), ("ts", .int 2),
    ("tick", .obj [
      ("asks", .arr [.arr [.double 3.0, .int 0]]),
      ("bids", .arr []),
      ("event", .str "update")])]⟩

/-- The message `zero_update_doc` as read by the getters. -/
def zero_update : Respond := ⟨2, "market.depth", [(3.0, 0)], []⟩

/-- A snapshot message whose asks `[[2.0,1],[1.0,1]]` are not in ascending order. -/
def unsorted_snapshot_doc : Document :=
  ⟨none, .obj [("ch", .str "market.depth"), ("ts", .int 1),
    ("tick", .obj [
      ("asks", .arr [.arr [.double 2.0, .int 1], .arr [.double 1.0, .int 1]]),
      ("bids", .arr [.arr [.double 0.5, .int 1]]),
      ("event", .str "snapshot")])]⟩

/-- The message `unsorted_snapshot_doc` as read by the getters. -/
def unsorted_snapshot : Respond := ⟨1, "market.depth", [(2.0, 1), (1.0, 1)], [(0.5, 1)]⟩

/-- A snapshot message whose `ts` is the string `"1"`. -/
def string_ts_doc : Document :=
  ⟨none, .obj [("ch", .str "market.depth"), ("ts", .str "1"),
    ("tick", .obj [
      ("asks", .arr [.arr [.double 100.5, .int 3]]),
      ("bids", .arr [.arr [.double 100.0, .int 2]]),
      ("event", .str "snapshot")])]⟩

/-- A snapshot message whose only ask `[100.5, 2.5]` has a quantity that is not an int. -/
def bad_ask_quantity_doc : Document :=
  ⟨none, .obj [("ch", .str "market.depth"), ("ts", .int 1),
    ("tick", .obj [
      ("asks", .arr [.arr [.double 100.5, .double 2.5]]),
      ("bids", .arr []),
      ("event", .str "snapshot")])]⟩

/-- A snapshot message with valid asks whose only bid `["a", "b"]` has neither a
double price nor an int quantity. -/
def bad_bid_doc : Document :=
  ⟨none, .obj [("ch", .str "market.depth"), ("ts", .int 1),
    ("tick", .obj [
      ("asks", .arr [.arr [.double 100.5, .int 3]]),
      ("bids", .arr [.arr [.str "a", .str "b"]]),
      ("event", .str "snapshot")])]⟩

/-- A snapshot message that lacks only `tick.bids`. -/
def missing_bids_doc : Document :=
  ⟨none, .obj [("ch", .str "market.depth"), ("ts", .int 1),
    ("tick", .obj [
      ("asks", .arr [.arr [.double 100.5, .int 3]]),
      ("event", .str "snapshot")])]⟩

/-- A message with a top-level `ping` member and no `tick`. -/
def ping_doc : Document := ⟨none, .obj [("ping", .int 1)]⟩

/-- An update message that deletes the ask at 2.0. -/
def delete_last_doc : Document :=
  ⟨none, .obj [("ch", .str "market.depth"), ("ts", .int 2),
    ("tick", .obj [
      ("asks", .arr [.arr [.double 2.0, .int 0]]),
      ("bids", .arr []),
      ("event", .str "update")])]⟩

/-- The message `delete_last_doc` as read by the getters. -/
def delete_last : Respond := ⟨2, "market.depth", [(2.0, 0)], []⟩

/-- A snapshot with `ts` 2 followed by an update with `ts` 1. -/
def backdated_calls : List ListCpp.Call :=
  [.set_snapshot ⟨2, "market.depth", [(2.0, 1)], [(1.0, 1)]⟩,
   .update_snapshot ⟨1, "market.depth", [(2.0, 5)], []⟩]

/-! # Theorems -/

/-! ## Side orderings and the list-based updater -/

theorem less_order : SideOrder less where
  irrefl := by intro a; simp [less]
  trans := by
    intro a b c hab hbc
    simp only [less, decide_eq_true_eq] at *
    exact lt_trans hab hbc
  total := by
    intro a b hab
    simp only [less, decide_eq_true_eq]
    exact lt_or_gt_of_ne hab

theorem greater_order : SideOrder greater where
  irrefl := by intro a; simp [greater]
  trans := by
    intro a b c hab hbc
    simp only [greater, decide_eq_true_eq, gt_iff_lt] at *
    exact lt_trans hbc hab
  total := by
    intro a b hab
    simp only [greater, decide_eq_true_eq, gt_iff_lt]
    exact (lt_or_gt_of_ne hab).symm

theorem SideOrder.ne {comp : ℚ → ℚ → Bool} (ho : SideOrder comp) {a b : ℚ}
    (h : comp a b = true) : a ≠ b := by
  intro hab
  rw [hab, ho.irrefl] at h
  exact Bool.false_ne_true h

theorem SideOrder.asymm {comp : ℚ → ℚ → Bool} (ho : SideOrder comp) {a b : ℚ}
    (h : comp a b = true) : ¬ comp b a = true := by
  intro h2
  exact ho.ne (ho.trans a b a h h2) rfl

theorem mem_keys {l : List Level} {p : ℚ} : p ∈ l.map Prod.fst ↔ ∃ q, (p, q) ∈ l := by
  simp

/-- Under the contract of the side, the updater returns the strictly sorted list
of the overlay of the ladder by the diff. -/
theorem updater_resolved : ∀ (doc list : List Level) (comp : ℚ → ℚ → Bool),
    SideOrder comp → strictSorted comp list → strictSorted comp doc →
    zeros_present doc list → is_resolved comp list doc (updater doc list comp) := by
  intro doc list comp
  induction doc, list, comp using updater.induct with
  | case1 comp list =>
    intro _ hS _ _
    rw [updater.eq_1]
    refine ⟨hS, fun x => ?_⟩
    simp [in_overlay]
  | case2 comp doc hne =>
    intro _ _ hD hz
    rw [updater.eq_2 _ _ hne]
    refine ⟨hD, fun x => ?_⟩
    simp only [in_overlay, List.not_mem_nil, false_and, or_false]
    constructor
    · intro hx
      refine ⟨hx, fun h0 => ?_⟩
      have := hz x hx h0
      simp at this
    · exact fun h => h.1
  | case3 comp pair doc it list hc ih =>
    intro ho hS hD hz
    simp only [Bool.and_eq_true, bne_iff_ne, ne_eq] at hc
    obtain ⟨hlt, hq⟩ := hc
    have hD2 := List.pairwise_cons.1 hD
    have hS2 := List.pairwise_cons.1 hS
    have hz2 : zeros_present doc (it :: list) := fun d hd h0 => hz d (List.mem_cons_of_mem _ hd) h0
    obtain ⟨ihs, ihm⟩ := ih ho hS hD2.2 hz2
    have hahead : ∀ x ∈ it :: list, comp pair.1 x.1 = true := by
      intro x hx
      rcases List.mem_cons.1 hx with rfl | hx
      · exact hlt
      · exact ho.trans _ _ _ hlt (hS2.1 x hx)
    rw [updater.eq_3, if_pos (by simp [hlt, hq])]
    refine ⟨?_, fun x => ?_⟩
    · refine List.pairwise_cons.2 ⟨fun x hx => ?_, ihs⟩
      rcases (ihm x).1 hx with h | h
      · exact hD2.1 x h.1
      · exact hahead x h.1
    · rw [List.mem_cons, ihm x]
      simp only [in_overlay, List.mem_cons, List.map_cons, not_or]
      constructor
      · rintro (rfl | h | h)
        · exact Or.inl ⟨Or.inl rfl, hq⟩
        · exact Or.inl ⟨Or.inr h.1, h.2⟩
        · refine Or.inr ⟨h.1, fun he => ?_, h.2⟩
          exact ho.ne (hahead x (List.mem_cons.2 h.1)) he.symm
      · rintro (⟨h | h, h0⟩ | ⟨h, -, h2⟩)
        · exact Or.inl h
        · exact Or.inr (Or.inl ⟨h, h0⟩)
        · exact Or.inr (Or.inr ⟨h, h2⟩)
  | case4 comp pair doc it list hc heq hq ih =>
    intro ho hS hD hz
    simp only [beq_iff_eq] at heq hq
    have hD2 := List.pairwise_cons.1 hD
    have hS2 := List.pairwise_cons.1 hS
    have hz2 : zeros_present doc list := by
      intro d hd h0
      have h1 := hz d (List.mem_cons_of_mem _ hd) h0
      simp only [List.map_cons, List.mem_cons] at h1
      rcases h1 with h1 | h1
      · exact absurd (heq.trans h1.symm) (ho.ne (hD2.1 d hd))
      · exact h1
    obtain ⟨ihs, ihm⟩ := ih ho hS2.2 hD2.2 hz2
    rw [updater.eq_3, if_neg hc, if_pos (by simpa using heq), if_pos (by simpa using hq)]
    refine ⟨ihs, fun x => ?_⟩
    rw [ihm x]
    simp only [in_overlay, List.mem_cons, List.map_cons, not_or]
    constructor
    · rintro (h | h)
      · exact Or.inl ⟨Or.inr h.1, h.2⟩
      · refine Or.inr ⟨Or.inr h.1, fun he => ?_, h.2⟩
        exact ho.ne (hS2.1 x h.1) (heq.symm.trans he.symm)
    · rintro (⟨h | h, h0⟩ | ⟨h | h, h1, h2⟩)
      · exact absurd (h ▸ hq) h0
      · exact Or.inl ⟨h, h0⟩
      · exact absurd (by rw [h, heq]) h1
      · exact Or.inr ⟨h, h2⟩
  | case5 comp pair doc it list hc heq hq ih =>
    intro ho hS hD hz
    simp only [beq_iff_eq] at heq hq
    have hD2 := List.pairwise_cons.1 hD
    have hS2 := List.pairwise_cons.1 hS
    have hz2 : zeros_present doc list := by
      intro d hd h0
      have h1 := hz d (List.mem_cons_of_mem _ hd) h0
      simp only [List.map_cons, List.mem_cons] at h1
      rcases h1 with h1 | h1
      · exact absurd (heq.trans h1.symm) (ho.ne (hD2.1 d hd))
      · exact h1
    obtain ⟨ihs, ihm⟩ := ih ho hS2.2 hD2.2 hz2
    have hpair : (it.1, pair.2) = pair := by rw [← heq]
    rw [updater.eq_3, if_neg hc, if_pos (by simpa using heq), if_neg (by simpa using hq), hpair]
    refine ⟨?_, fun x => ?_⟩
    · refine List.pairwise_cons.2 ⟨fun x hx => ?_, ihs⟩
      rcases (ihm x).1 hx with h | h
      · exact hD2.1 x h.1
      · rw [heq]; exact hS2.1 x h.1
    · rw [List.mem_cons, ihm x]
      simp only [in_overlay, List.mem_cons, List.map_cons, not_or]
      constructor
      · rintro (rfl | h | h)
        · exact Or.inl ⟨Or.inl rfl, hq⟩
        · exact Or.inl ⟨Or.inr h.1, h.2⟩
        · refine Or.inr ⟨Or.inr h.1, fun he => ?_, h.2⟩
          exact ho.ne (hS2.1 x h.1) (heq.symm.trans he.symm)
      · rintro (⟨h | h, h0⟩ | ⟨h | h, h1, h2⟩)
        · exact Or.inl h
        · exact Or.inr (Or.inl ⟨h, h0⟩)
        · exact absurd (by rw [h, heq]) h1
        · exact Or.inr (Or.inr ⟨h, h2⟩)
  | case6 comp pair doc it list hc hne ih =>
    intro ho hS hD hz
    simp only [beq_iff_eq] at hne
    have hD2 := List.pairwise_cons.1 hD
    have hS2 := List.pairwise_cons.1 hS
    -- the diff price ranks strictly behind the cursor
    have hbehind : comp it.1 pair.1 = true := by
      rcases ho.total _ _ hne with h | h
      · have hq : pair.2 = 0 := by
          by_contra hq
          exact hc (by simp [h, hq])
        have h1 := hz pair (List.mem_cons_self _ _) hq
        simp only [List.map_cons, List.mem_cons] at h1
        rcases h1 with h1 | h1
        · exact absurd h1 hne
        · obtain ⟨q, hq2⟩ := mem_keys.1 h1
          exact absurd (hS2.1 _ hq2) (ho.asymm h)
      · exact h
    have hall : ∀ d ∈ pair :: doc, comp it.1 d.1 = true := by
      intro d hd
      rcases List.mem_cons.1 hd with rfl | hd
      · exact hbehind
      · exact ho.trans _ _ _ hbehind (hD2.1 d hd)
    have hz2 : zeros_present (pair :: doc) list := by
      intro d hd h0
      have h1 := hz d hd h0
      simp only [List.map_cons, List.mem_cons] at h1
      rcases h1 with h1 | h1
      · exact absurd h1.symm (ho.ne (hall d hd))
      · exact h1
    obtain ⟨ihs, ihm⟩ := ih ho hS2.2 hD hz2
    rw [updater.eq_3, if_neg hc, if_neg (by simpa using hne)]
    refine ⟨?_, fun x => ?_⟩
    · refine List.pairwise_cons.2 ⟨fun x hx => ?_, ihs⟩
      rcases (ihm x).1 hx with h | h
      · exact hall x h.1
      · exact hS2.1 x h.1
    · rw [List.mem_cons, ihm x]
      simp only [in_overlay, List.mem_cons, List.map_cons, not_or]
      constructor
      · rintro (rfl | h | h)
        · refine Or.inr ⟨Or.inl rfl, ?_⟩
          have : x.1 ∉ List.map Prod.fst (pair :: doc) := by
            intro hm
            obtain ⟨q, hq⟩ := mem_keys.1 hm
            exact ho.ne (hall _ hq) rfl
          simpa [not_or] using this
        · exact Or.inl h
        · exact Or.inr ⟨Or.inr h.1, h.2⟩
      · rintro (h | ⟨h | h, h2⟩)
        · exact Or.inr (Or.inl h)
        · exact Or.inl h
        · exact Or.inr (Or.inr ⟨h, h2⟩)

theorem strictSorted_nodup {comp : ℚ → ℚ → Bool} (ho : SideOrder comp) {l : List Level}
    (h : strictSorted comp l) : l.Nodup := by
  refine List.Pairwise.imp ?_ h
  intro a b hab he
  exact ho.ne hab (by rw [he])

/-- Two strictly sorted lists with the same members are equal. -/
theorem strictSorted_unique {comp : ℚ → ℚ → Bool} (ho : SideOrder comp) {l₁ l₂ : List Level}
    (h₁ : strictSorted comp l₁) (h₂ : strictSorted comp l₂)
    (hm : ∀ x, x ∈ l₁ ↔ x ∈ l₂) : l₁ = l₂ := by
  haveI : IsAntisymm Level (fun a b => comp a.1 b.1 = true) :=
    ⟨fun a b hab hba => absurd hba (ho.asymm hab)⟩
  have hp : l₁.Perm l₂ :=
    (List.perm_ext_iff_of_nodup (strictSorted_nodup ho h₁) (strictSorted_nodup ho h₂)).2 hm
  exact List.eq_of_perm_of_sorted hp h₁ h₂

theorem is_resolved_unique {comp : ℚ → ℚ → Bool} (ho : SideOrder comp) {S D R₁ R₂ : List Level}
    (h₁ : is_resolved comp S D R₁) (h₂ : is_resolved comp S D R₂) : R₁ = R₂ :=
  strictSorted_unique ho h₁.1 h₂.1 (fun x => (h₁.2 x).trans (h₂.2 x).symm)

theorem is_resolved_no_zero {comp : ℚ → ℚ → Bool} {S D R : List Level}
    (h : is_resolved comp S D R) (hS : no_zero S) : no_zero R := by
  intro x hx
  rcases (h.2 x).1 hx with h1 | h1
  · exact h1.2
  · exact hS x h1.1

theorem push_nonzero_eq (out array : List Level) :
    push_nonzero out array = out ++ array.filter (fun v => v.2 != 0) := by
  induction array generalizing out with
  | nil => simp [push_nonzero]
  | cons v rest ih =>
    have hstep : push_nonzero out (v :: rest) =
        push_nonzero (if v.2 == 0 then out else out ++ [(v.1, v.2)]) rest := rfl
    rw [hstep, ih]
    by_cases h : v.2 = 0
    · simp [h]
    · simp [h]

theorem strictSorted_filter {comp : ℚ → ℚ → Bool} {l : List Level} (p : Level → Bool)
    (h : strictSorted comp l) : strictSorted comp (l.filter p) :=
  List.Pairwise.filter p h

/-! ## `std::map` -/

/-- The assignment `m[k] = v` keeps a strictly sorted map strictly sorted; its
nodes are `(k, v)` and the old nodes of another key. -/
theorem StdMap.assign_spec {comp : ℚ → ℚ → Bool} (ho : SideOrder comp) (k : ℚ) (v : Int) :
    ∀ m : List Level, strictSorted comp m →
      strictSorted comp (StdMap.assign comp k v m) ∧
      ∀ x, x ∈ StdMap.assign comp k v m ↔ x = (k, v) ∨ (x ∈ m ∧ x.1 ≠ k) := by
  intro m
  induction m with
  | nil =>
    intro _
    simp [StdMap.assign, strictSorted]
  | cons n m ih =>
    intro hm
    have hm2 := List.pairwise_cons.1 hm
    obtain ⟨ihs, ihm⟩ := ih hm2.2
    unfold StdMap.assign
    by_cases hk : k = n.1
    · rw [if_pos (by simpa using hk)]
      refine ⟨List.pairwise_cons.2 ⟨hm2.1, hm2.2⟩, fun x => ?_⟩
      simp only [List.mem_cons]
      constructor
      · rintro (h | h)
        · exact Or.inl (by rw [h, hk])
        · exact Or.inr ⟨Or.inr h, fun he => ho.ne (hm2.1 x h) (by rw [he, hk])⟩
      · rintro (h | ⟨h | h, h2⟩)
        · exact Or.inl (by rw [h, hk])
        · exact absurd (by rw [h, hk]) h2
        · exact Or.inr h
    · rw [if_neg (by simpa using hk)]
      by_cases hc : comp k n.1 = true
      · rw [if_pos hc]
        refine ⟨List.pairwise_cons.2 ⟨fun x hx => ?_, hm⟩, fun x => ?_⟩
        · rcases List.mem_cons.1 hx with rfl | hx
          · exact hc
          · exact ho.trans _ _ _ hc (hm2.1 x hx)
        · simp only [List.mem_cons]
          constructor
          · rintro (h | h | h)
            · exact Or.inl h
            · exact Or.inr ⟨Or.inl h, fun he => hk (by rw [← he, h])⟩
            · exact Or.inr ⟨Or.inr h, fun he =>
                ho.ne (ho.trans _ _ _ hc (hm2.1 x h)) he.symm⟩
          · rintro (h | ⟨h | h, -⟩)
            · exact Or.inl h
            · exact Or.inr (Or.inl h)
            · exact Or.inr (Or.inr h)
      · rw [if_neg hc]
        have hbehind : comp n.1 k = true := by
          rcases ho.total _ _ hk with h | h
          · exact absurd h hc
          · exact h
        refine ⟨List.pairwise_cons.2 ⟨fun x hx => ?_, ihs⟩, fun x => ?_⟩
        · rcases (ihm x).1 hx with h | h
          · rw [h]; exact hbehind
          · exact hm2.1 x h.1
        · rw [List.mem_cons, ihm x]
          simp only [List.mem_cons]
          constructor
          · rintro (h | h | h)
            · exact Or.inr ⟨Or.inl h, fun he => hk (by rw [← he, h])⟩
            · exact Or.inl h
            · exact Or.inr ⟨Or.inr h.1, h.2⟩
          · rintro (h | ⟨h | h, h2⟩)
            · exact Or.inr (Or.inl h)
            · exact Or.inl h
            · exact Or.inr (Or.inr ⟨h, h2⟩)

theorem StdMap.erase_spec (comp : ℚ → ℚ → Bool) (k : ℚ) (m : List Level)
    (hm : strictSorted comp m) :
    strictSorted comp (StdMap.erase k m) ∧
    ∀ x, x ∈ StdMap.erase k m ↔ x ∈ m ∧ x.1 ≠ k := by
  refine ⟨strictSorted_filter _ hm, fun x => ?_⟩
  simp [StdMap.erase]

/-- On a strictly sorted map and a strictly sorted diff, the update loop of the
map-based book returns the strictly sorted list of the overlay. -/
theorem MapCpp.update_loop_resolved {comp : ℚ → ℚ → Bool} (ho : SideOrder comp) :
    ∀ (array m : List Level), strictSorted comp m → strictSorted comp array →
      is_resolved comp m array (MapCpp.update_loop comp m array) := by
  intro array
  induction array with
  | nil =>
    intro m hm _
    exact ⟨hm, fun x => by simp [MapCpp.update_loop, in_overlay]⟩
  | cons v rest ih =>
    intro m hm hD
    have hD2 := List.pairwise_cons.1 hD
    have hstep : MapCpp.update_loop comp m (v :: rest) =
        MapCpp.update_loop comp
          (if v.2 == 0 then StdMap.erase v.1 m else StdMap.assign comp v.1 v.2 m) rest := rfl
    have hfresh : v.1 ∉ rest.map Prod.fst := by
      intro hmem
      obtain ⟨q, hq⟩ := mem_keys.1 hmem
      exact ho.ne (hD2.1 _ hq) rfl
    rw [hstep]
    by_cases h0 : v.2 = 0
    · rw [if_pos (by simpa using h0)]
      obtain ⟨hs, hmem⟩ := StdMap.erase_spec comp v.1 m hm
      obtain ⟨ihs, ihm⟩ := ih _ hs hD2.2
      refine ⟨ihs, fun x => ?_⟩
      rw [ihm x]
      simp only [in_overlay, hmem, List.mem_cons, List.map_cons, not_or]
      constructor
      · rintro (h | h)
        · exact Or.inl ⟨Or.inr h.1, h.2⟩
        · exact Or.inr ⟨h.1.1, h.1.2, h.2⟩
      · rintro (⟨h | h, hq⟩ | h)
        · exact absurd (h ▸ h0) hq
        · exact Or.inl ⟨h, hq⟩
        · exact Or.inr ⟨⟨h.1, h.2.1⟩, h.2.2⟩
    · rw [if_neg (by simpa using h0)]
      obtain ⟨hs, hmem⟩ := StdMap.assign_spec ho v.1 v.2 m hm
      obtain ⟨ihs, ihm⟩ := ih _ hs hD2.2
      refine ⟨ihs, fun x => ?_⟩
      rw [ihm x]
      simp only [in_overlay, hmem, List.mem_cons, List.map_cons, not_or]
      constructor
      · rintro (h | ⟨h | h, h2⟩)
        · exact Or.inl ⟨Or.inr h.1, h.2⟩
        · exact Or.inl ⟨Or.inl h, by rw [h]; exact h0⟩
        · exact Or.inr ⟨h.1, h.2, h2⟩
      · rintro (⟨h | h, hq⟩ | h)
        · exact Or.inr ⟨Or.inl h, by rw [h]; exact hfresh⟩
        · exact Or.inl ⟨h, hq⟩
        · exact Or.inr ⟨Or.inr ⟨h.1, h.2.1⟩, h.2.2⟩

/-! ## The list-based book -/

theorem ListCpp.contract_step (c : ListCpp.Call) (b : ListCpp.Limit_order_book)
    (hb : ListCpp.ladders_ok b) (hc : c.contract b) : ListCpp.ladders_ok (c.apply b) := by
  obtain ⟨hsa, hsb, hza, hzb⟩ := hb
  cases c with
  | set_snapshot respond =>
    obtain ⟨ha, hbd⟩ := hc
    simp only [ListCpp.Call.apply, ListCpp.set_snapshot, ListCpp.ladders_ok, push_nonzero_eq,
      List.nil_append]
    refine ⟨strictSorted_filter _ ha, strictSorted_filter _ hbd, ?_, ?_⟩
    · intro v hv
      simpa using (List.mem_filter.1 hv).2
    · intro v hv
      simpa using (List.mem_filter.1 hv).2
  | update_snapshot respond =>
    obtain ⟨ha, hbd, hpa, hpb⟩ := hc
    have h1 := updater_resolved respond.asks b.asks less less_order hsa ha hpa
    have h2 := updater_resolved respond.bids b.bids greater greater_order hsb hbd hpb
    exact ⟨h1.1, h2.1, is_resolved_no_zero h1 hza, is_resolved_no_zero h2 hzb⟩

/-- A sequence of calls that keeps the feed contract keeps both ladders strictly
sorted and free of zero quantities. -/
theorem ListCpp.feed_invariant (calls : List ListCpp.Call) :
    ∀ b : ListCpp.Limit_order_book, ListCpp.ladders_ok b → ListCpp.feed_contract b calls →
      ListCpp.ladders_ok (ListCpp.run b calls) := by
  induction calls with
  | nil => intro b hb _; exact hb
  | cons c cs ih =>
    intro b hb hc
    exact ih (c.apply b) (ListCpp.contract_step c b hb hc.1) hc.2

theorem ListCpp.feed_contract_take (calls : List ListCpp.Call) :
    ∀ (b : ListCpp.Limit_order_book) (n : Nat), ListCpp.feed_contract b calls →
      ListCpp.feed_contract b (calls.take n) := by
  induction calls with
  | nil => intro b n h; simpa using h
  | cons c cs ih =>
    intro b n h
    cases n with
    | zero => exact trivial
    | succ n => exact ⟨h.1, ih (c.apply b) n h.2⟩

theorem ListCpp.empty_ok : ListCpp.ladders_ok ListCpp.empty := by
  simp [ListCpp.ladders_ok, ListCpp.empty, strictSorted, no_zero]

theorem ListCpp.feed_take_ok (calls : List ListCpp.Call) (n : Nat)
    (h : ListCpp.feed_contract ListCpp.empty calls) :
    ListCpp.ladders_ok (ListCpp.run ListCpp.empty (calls.take n)) :=
  ListCpp.feed_invariant _ _ ListCpp.empty_ok (ListCpp.feed_contract_take calls _ n h)

theorem head_ranks_first {comp : ℚ → ℚ → Bool} {l : List Level} (hs : strictSorted comp l)
    (hne : l ≠ []) :
    ∃ best, l.head? = some best ∧ best ∈ l ∧ ∀ x ∈ l, x = best ∨ comp best.1 x.1 = true := by
  cases l with
  | nil => exact absurd rfl hne
  | cons a t =>
    refine ⟨a, rfl, List.mem_cons_self _ _, fun x hx => ?_⟩
    rcases List.mem_cons.1 hx with h | h
    · exact Or.inl h
    · exact Or.inr ((List.pairwise_cons.1 hs).1 x h)

/-! ## The claims -/

/-- C1 (merge correctness of the list-based updater).  `update_snapshot` runs the
updater with `less` on the asks and with `greater` on the bids.  On each side,
when the ladder and the diff keep the contract (both strictly sorted under the
side's ordering, no zero quantity in the ladder, every zero-quantity entry of
the diff names a price of the ladder), the ladder after `update_snapshot` is the
strictly sorted list of the overlay of the ladder by the diff: it is strictly
sorted, its levels are exactly the non-zero entries of the diff and the levels
of the old ladder whose price the diff does not mention, and it is the only
list with these two properties. -/
theorem updater_merge_correct (b : ListCpp.Limit_order_book) (respond : Respond) :
    (ladder_contract less b.asks respond.asks →
      strictSorted less (ListCpp.update_snapshot respond b).asks ∧
      (∀ x, x ∈ (ListCpp.update_snapshot respond b).asks ↔
        (x ∈ respond.asks ∧ x.2 ≠ 0) ∨ (x ∈ b.asks ∧ x.1 ∉ respond.asks.map Prod.fst)) ∧
      (∀ R, is_resolved less b.asks respond.asks R →
        (ListCpp.update_snapshot respond b).asks = R)) ∧
    (ladder_contract greater b.bids respond.bids →
      strictSorted greater (ListCpp.update_snapshot respond b).bids ∧
      (∀ x, x ∈ (ListCpp.update_snapshot respond b).bids ↔
        (x ∈ respond.bids ∧ x.2 ≠ 0) ∨ (x ∈ b.bids ∧ x.1 ∉ respond.bids.map Prod.fst)) ∧
      (∀ R, is_resolved greater b.bids respond.bids R →
        (ListCpp.update_snapshot respond b).bids = R)) := by
  constructor
  · rintro ⟨hS, -, hD, hz⟩
    have h := updater_resolved respond.asks b.asks less less_order hS hD hz
    exact ⟨h.1, h.2, fun R hR => is_resolved_unique less_order h hR⟩
  · rintro ⟨hS, -, hD, hz⟩
    have h := updater_resolved respond.bids b.bids greater greater_order hS hD hz
    exact ⟨h.1, h.2, fun R hR => is_resolved_unique greater_order h hR⟩

/-- Witness of C1: the ladders left by scenario A and the diff of scenario B. -/
theorem updater_merge_correct_witness :
    ladder_contract less (ListCpp.set_snapshot scenario_A ListCpp.empty).asks scenario_B.asks ∧
    ladder_contract greater (ListCpp.set_snapshot scenario_A ListCpp.empty).bids scenario_B.bids ∧
    strictSorted less
      (ListCpp.update_snapshot scenario_B (ListCpp.set_snapshot scenario_A ListCpp.empty)).asks ∧
    strictSorted greater
      (ListCpp.update_snapshot scenario_B (ListCpp.set_snapshot scenario_A ListCpp.empty)).bids := by
  have ha : ladder_contract less (ListCpp.set_snapshot scenario_A ListCpp.empty).asks
      scenario_B.asks := by
    norm_num [ladder_contract, strictSorted, no_zero, zeros_present, less, scenario_A,
      scenario_B, ListCpp.set_snapshot, push_nonzero]
  have hb : ladder_contract greater (ListCpp.set_snapshot scenario_A ListCpp.empty).bids
      scenario_B.bids := by
    norm_num [ladder_contract, strictSorted, no_zero, zeros_present, greater, scenario_A,
      scenario_B, ListCpp.set_snapshot, push_nonzero]
  exact ⟨ha, hb,
    ((updater_merge_correct (ListCpp.set_snapshot scenario_A ListCpp.empty) scenario_B).1 ha).1,
    ((updater_merge_correct (ListCpp.set_snapshot scenario_A ListCpp.empty) scenario_B).2 hb).1⟩

/-- C2, as stated, fails: from the empty book, a snapshot with the single ask
`[2.0, 1]` and the single bid `[1.0, 1]` followed by an update with the single
ask `[1.0, 0]` (both calls carry strictly sorted lists) leaves the asks
`[(2.0, 1), (1.0, 0)]`, which are not strictly ascending. -/
theorem sort_invariant_counterexample :
    (∀ c ∈ delete_absent_calls, c.sorted) ∧
    (ListCpp.run ListCpp.empty delete_absent_calls).asks = [(2.0, 1), (1.0, 0)] ∧
    ¬ strictSorted less (ListCpp.run ListCpp.empty delete_absent_calls).asks := by
  refine ⟨?_, ?_, ?_⟩
  · norm_num [delete_absent_calls, ListCpp.Call.sorted, ListCpp.Call.respond, strictSorted]
  · norm_num [delete_absent_calls, ListCpp.run, ListCpp.Call.apply, ListCpp.set_snapshot,
      ListCpp.update_snapshot, ListCpp.empty, push_nonzero, updater, less]
  · norm_num [delete_absent_calls, ListCpp.run, ListCpp.Call.apply, ListCpp.set_snapshot,
      ListCpp.update_snapshot, ListCpp.empty, push_nonzero, updater, less, strictSorted]

/-- C2, amended (sort invariant of the list-based book).  Starting from the empty
book, after every call of a sequence of `set_snapshot` and `update_snapshot`
calls that keeps the feed contract (ask lists strictly ascending, bid lists
strictly descending, and every zero-quantity entry of an update names a price
that its ladder holds at that moment), the stored asks are strictly ascending
and the stored bids strictly descending by price. -/
theorem sort_invariant (calls : List ListCpp.Call)
    (h : ListCpp.feed_contract ListCpp.empty calls) (n : Nat) :
    strictSorted less (ListCpp.run ListCpp.empty (calls.take n)).asks ∧
    strictSorted greater (ListCpp.run ListCpp.empty (calls.take n)).bids :=
  ⟨(ListCpp.feed_take_ok calls n h).1, (ListCpp.feed_take_ok calls n h).2.1⟩

/-- Witness of the amended C2: scenario A followed by scenario B. -/
theorem sort_invariant_witness :
    ListCpp.feed_contract ListCpp.empty
      [.set_snapshot scenario_A, .update_snapshot scenario_B] ∧
    strictSorted less (ListCpp.run ListCpp.empty
      ([ListCpp.Call.set_snapshot scenario_A, .update_snapshot scenario_B].take 2)).asks ∧
    strictSorted greater (ListCpp.run ListCpp.empty
      ([ListCpp.Call.set_snapshot scenario_A, .update_snapshot scenario_B].take 2)).bids := by
  have hc : ListCpp.feed_contract ListCpp.empty
      [.set_snapshot scenario_A, .update_snapshot scenario_B] := by
    norm_num [ListCpp.feed_contract, ListCpp.Call.contract, ListCpp.Call.apply,
      ListCpp.set_snapshot, ListCpp.empty, push_nonzero, strictSorted, zeros_present,
      scenario_A, scenario_B, less, greater]
  exact ⟨hc, sort_invariant _ hc 2⟩

/-- C3, as stated, fails: the snapshot message with the ask `[2.0, 1]` and the
update message with the single ask `[3.0, 0]` are both accepted by `check_data`
and their lists are sorted; applied in this order to the empty book they leave
the asks `[(2.0, 1), (3.0, 0)]`, with a level of quantity 0. -/
theorem zero_residue_counterexample :
    check_data one_level_snapshot_doc = some (Event.snapshot, "success") ∧
    Respond.read one_level_snapshot_doc = some one_level_snapshot ∧
    check_data zero_update_doc = some (Event.update, "success: ") ∧
    Respond.read zero_update_doc = some zero_update ∧
    strictSorted less one_level_snapshot.asks ∧ strictSorted greater one_level_snapshot.bids ∧
    strictSorted less zero_update.asks ∧ strictSorted greater zero_update.bids ∧
    (ListCpp.update_snapshot zero_update
      (ListCpp.set_snapshot one_level_snapshot ListCpp.empty)).asks = [(2.0, 1), (3.0, 0)] ∧
    ¬ no_zero (ListCpp.update_snapshot zero_update
      (ListCpp.set_snapshot one_level_snapshot ListCpp.empty)).asks := by
  have hasks : (ListCpp.update_snapshot zero_update
      (ListCpp.set_snapshot one_level_snapshot ListCpp.empty)).asks = [(2.0, 1), (3.0, 0)] := by
    norm_num [zero_update, one_level_snapshot, ListCpp.update_snapshot, ListCpp.set_snapshot,
      ListCpp.empty, push_nonzero, updater, less]
  refine ⟨by decide, rfl, by decide, rfl, ?_, ?_, ?_, ?_, hasks, ?_⟩
  · simp [one_level_snapshot, strictSorted]
  · simp [one_level_snapshot, strictSorted]
  · simp [zero_update, strictSorted]
  · simp [zero_update, strictSorted]
  · rw [hasks]
    simp [no_zero]

/-- C3, amended (no zero-quantity residue in the list-based book).  Starting from
the empty book, after every call of a sequence of `set_snapshot` and
`update_snapshot` calls whose lists are strictly sorted under the side's
ordering and in which every zero-quantity entry of an update names a price that
its ladder holds at that moment, no level stored in asks or bids has quantity 0. -/
theorem no_zero_residue (calls : List ListCpp.Call)
    (h : ListCpp.feed_contract ListCpp.empty calls) (n : Nat) :
    no_zero (ListCpp.run ListCpp.empty (calls.take n)).asks ∧
    no_zero (ListCpp.run ListCpp.empty (calls.take n)).bids :=
  ⟨(ListCpp.feed_take_ok calls n h).2.2.1, (ListCpp.feed_take_ok calls n h).2.2.2⟩

/-- Witness of the amended C3: scenario A followed by scenario B. -/
theorem no_zero_residue_witness :
    ListCpp.feed_contract ListCpp.empty
      [.set_snapshot scenario_A, .update_snapshot scenario_B] ∧
    no_zero (ListCpp.run ListCpp.empty
      ([ListCpp.Call.set_snapshot scenario_A, .update_snapshot scenario_B].take 2)).asks ∧
    no_zero (ListCpp.run ListCpp.empty
      ([ListCpp.Call.set_snapshot scenario_A, .update_snapshot scenario_B].take 2)).bids := by
  have hc : ListCpp.feed_contract ListCpp.empty
      [.set_snapshot scenario_A, .update_snapshot scenario_B] := by
    norm_num [ListCpp.feed_contract, ListCpp.Call.contract, ListCpp.Call.apply,
      ListCpp.set_snapshot, ListCpp.empty, push_nonzero, strictSorted, zeros_present,
      scenario_A, scenario_B, less, greater]
  exact ⟨hc, no_zero_residue _ hc 2⟩

/-- C4 (deletion in `map_v2.cpp`), the code at the scenario of the claim: the
`Processed_data` built from the update `[[100.5,0],[100.75,7]]` holds only the
ask `(100.75, 7)`, because `fill_data` skips the zero-quantity pair; after the
snapshot and the update the level at 100.5 is still stored and `get_best_ask()`
is `(100.5, 3)`, not `(100.75, 7)`. -/
theorem map_v2_deletion_lost :
    (MapV2.Processed_data.ctor scenario_B_doc).map (fun p => p.asks) = some [(100.75, 7)] ∧
    MapV2.scenario_AB.map (fun b => b.asks) = some [(100.5, 3), (100.75, 7), (101.0, 5)] ∧
    MapV2.scenario_AB.map MapV2.get_best_ask = some (some (100.5, 3)) := by
  have hA : MapV2.Processed_data.ctor scenario_A_doc =
      some ⟨Event.snapshot, 1, [(100.5, 3), (101.0, 5)], [(100.0, 2), (99.5, 4)]⟩ := by
    have h1 : check_data scenario_A_doc = some (Event.snapshot, "success") := by decide
    have h2 : MapV2.fill_data_doc scenario_A_doc ⟨Event.snapshot, 0, [], []⟩ =
        some ⟨Event.snapshot, 1, [(100.5, 3), (101.0, 5)], [(100.0, 2), (99.5, 4)]⟩ := rfl
    simp only [MapV2.Processed_data.ctor, h1, h2]
  have hB : MapV2.Processed_data.ctor scenario_B_doc =
      some ⟨Event.update, 2, [(100.75, 7)], []⟩ := by
    have h1 : check_data scenario_B_doc = some (Event.update, "success: ") := by decide
    have h2 : MapV2.fill_data_doc scenario_B_doc ⟨Event.update, 0, [], []⟩ =
        some ⟨Event.update, 2, [(100.75, 7)], []⟩ := rfl
    simp only [MapV2.Processed_data.ctor, h1, h2]
  have hAB : MapV2.scenario_AB = some ⟨2, [(100.5, 3), (100.75, 7), (101.0, 5)],
      [(100.0, 2), (99.5, 4)]⟩ := by
    simp only [MapV2.scenario_AB, hA, hB]
    norm_num [MapV2.update_snapshot, MapV2.set_snapshot, MapV2.empty, MapV2.update_loop,
      MapV2.snapshot_loop, StdMap.assign, StdMap.erase, less, greater]
  refine ⟨by rw [hB]; rfl, by rw [hAB]; rfl, by rw [hAB]; rfl⟩

/-- C5, as stated, fails: the snapshot message with asks `[[2.0,1],[1.0,1]]` is
accepted by `check_data`; after `set_snapshot` on the empty book the asks are
not empty and `get_best_ask()` is `(2.0, 1)`, while the lower price 1.0 is stored. -/
theorem best_level_counterexample :
    check_data unsorted_snapshot_doc = some (Event.snapshot, "success") ∧
    Respond.read unsorted_snapshot_doc = some unsorted_snapshot ∧
    ListCpp.get_best_ask (ListCpp.set_snapshot unsorted_snapshot ListCpp.empty) =
      some (2.0, 1) ∧
    (1.0, 1) ∈ (ListCpp.set_snapshot unsorted_snapshot ListCpp.empty).asks ∧
    (1.0 : ℚ) < 2.0 := by
  refine ⟨by decide, rfl, ?_, ?_, by norm_num⟩
  · simp [unsorted_snapshot, ListCpp.set_snapshot, ListCpp.get_best_ask, push_nonzero]
  · simp [unsorted_snapshot, ListCpp.set_snapshot, push_nonzero]

/-- C5, amended (best-level correctness of the list-based book).  For every book
state reached from the empty book by `set_snapshot` and `update_snapshot` calls
that keep the feed contract (ask lists strictly ascending, bid lists strictly
descending, every zero-quantity entry of an update names a price its ladder
holds at that moment): if asks is non-empty, `get_best_ask()` returns a stored
level whose price is the minimum of the prices stored in asks, and if bids is
non-empty, `get_best_bid()` returns a stored level whose price is the maximum
of the prices stored in bids. -/
theorem best_level_correct (calls : List ListCpp.Call)
    (h : ListCpp.feed_contract ListCpp.empty calls) :
    ((ListCpp.run ListCpp.empty calls).asks ≠ [] →
      ∃ best, ListCpp.get_best_ask (ListCpp.run ListCpp.empty calls) = some best ∧
        best ∈ (ListCpp.run ListCpp.empty calls).asks ∧
        ∀ l ∈ (ListCpp.run ListCpp.empty calls).asks, best.1 ≤ l.1) ∧
    ((ListCpp.run ListCpp.empty calls).bids ≠ [] →
      ∃ best, ListCpp.get_best_bid (ListCpp.run ListCpp.empty calls) = some best ∧
        best ∈ (ListCpp.run ListCpp.empty calls).bids ∧
        ∀ l ∈ (ListCpp.run ListCpp.empty calls).bids, l.1 ≤ best.1) := by
  have hok := ListCpp.feed_invariant calls _ ListCpp.empty_ok h
  constructor
  · intro hne
    obtain ⟨best, hb, hmem, hall⟩ := head_ranks_first hok.1 hne
    refine ⟨best, hb, hmem, fun l hl => ?_⟩
    rcases hall l hl with h1 | h1
    · rw [h1]
    · exact le_of_lt (by simpa [less] using h1)
  · intro hne
    obtain ⟨best, hb, hmem, hall⟩ := head_ranks_first hok.2.1 hne
    refine ⟨best, hb, hmem, fun l hl => ?_⟩
    rcases hall l hl with h1 | h1
    · rw [h1]
    · exact le_of_lt (by simpa [greater] using h1)

/-- Witness of the amended C5: the asks after scenario A followed by scenario B. -/
theorem best_level_correct_witness :
    ListCpp.feed_contract ListCpp.empty
      [.set_snapshot scenario_A, .update_snapshot scenario_B] ∧
    (∃ best, ListCpp.get_best_ask (ListCpp.run ListCpp.empty
        [.set_snapshot scenario_A, .update_snapshot scenario_B]) = some best ∧
      best ∈ (ListCpp.run ListCpp.empty
        [.set_snapshot scenario_A, .update_snapshot scenario_B]).asks ∧
      ∀ l ∈ (ListCpp.run ListCpp.empty
        [.set_snapshot scenario_A, .update_snapshot scenario_B]).asks, best.1 ≤ l.1) := by
  have hc : ListCpp.feed_contract ListCpp.empty
      [.set_snapshot scenario_A, .update_snapshot scenario_B] := by
    norm_num [ListCpp.feed_contract, ListCpp.Call.contract, ListCpp.Call.apply,
      ListCpp.set_snapshot, ListCpp.empty, push_nonzero, strictSorted, zeros_present,
      scenario_A, scenario_B, less, greater]
  have hasks : (ListCpp.run ListCpp.empty
      [.set_snapshot scenario_A, .update_snapshot scenario_B]).asks =
      [(100.75, 7), (101.0, 5)] := by
    norm_num [ListCpp.run, ListCpp.Call.apply, ListCpp.set_snapshot, ListCpp.update_snapshot,
      ListCpp.empty, push_nonzero, updater, scenario_A, scenario_B, less]
  have hne : (ListCpp.run ListCpp.empty
      [.set_snapshot scenario_A, .update_snapshot scenario_B]).asks ≠ [] := by
    rw [hasks]
    exact List.cons_ne_nil _ _
  exact ⟨hc, (best_level_correct _ hc).1 hne⟩

/-- On the content of a message as read in full, `set_snapshot` stores exactly
the pairs whose quantity is not 0, in the order received, whatever the prior
book held, and `get_time()` is the `ts` of the message. -/
theorem snapshot_replace (b : ListCpp.Limit_order_book) (respond : Respond) :
    (ListCpp.set_snapshot respond b).asks = respond.asks.filter (fun v => v.2 != 0) ∧
    (ListCpp.set_snapshot respond b).bids = respond.bids.filter (fun v => v.2 != 0) ∧
    ListCpp.get_time (ListCpp.set_snapshot respond b) = respond.ts := by
  refine ⟨?_, ?_, rfl⟩
  · simp only [ListCpp.set_snapshot, push_nonzero_eq, List.nil_append]
  · simp only [ListCpp.set_snapshot, push_nonzero_eq, List.nil_append]

/-- C7 (snapshot idempotence, list-based and map-based book).  Applying
`set_snapshot` with the payload `p` twice in a row gives the same book as
applying it once, and the asks, bids, time and channel after `set_snapshot`
with `p` are the same from any two prior states. -/
theorem snapshot_idempotent (p : Respond) :
    (∀ b : ListCpp.Limit_order_book,
      ListCpp.set_snapshot p (ListCpp.set_snapshot p b) = ListCpp.set_snapshot p b) ∧
    (∀ b₁ b₂ : ListCpp.Limit_order_book,
      (ListCpp.set_snapshot p b₁).asks = (ListCpp.set_snapshot p b₂).asks ∧
      (ListCpp.set_snapshot p b₁).bids = (ListCpp.set_snapshot p b₂).bids ∧
      ListCpp.get_time (ListCpp.set_snapshot p b₁) =
        ListCpp.get_time (ListCpp.set_snapshot p b₂) ∧
      (ListCpp.set_snapshot p b₁).chanel = (ListCpp.set_snapshot p b₂).chanel) ∧
    (∀ b : MapCpp.Limit_order_book,
      MapCpp.set_snapshot p (MapCpp.set_snapshot p b) = MapCpp.set_snapshot p b) ∧
    (∀ b₁ b₂ : MapCpp.Limit_order_book,
      (MapCpp.set_snapshot p b₁).asks = (MapCpp.set_snapshot p b₂).asks ∧
      (MapCpp.set_snapshot p b₁).bids = (MapCpp.set_snapshot p b₂).bids ∧
      MapCpp.get_time (MapCpp.set_snapshot p b₁) =
        MapCpp.get_time (MapCpp.set_snapshot p b₂) ∧
      (MapCpp.set_snapshot p b₁).chanel = (MapCpp.set_snapshot p b₂).chanel) :=
  ⟨fun _ => rfl, fun _ _ => ⟨rfl, rfl, rfl, rfl⟩, fun _ => rfl, fun _ _ => ⟨rfl, rfl, rfl, rfl⟩⟩

/-- C8 (the list-based and the map-based ladders implement the same contract).
When a list-based and a map-based book hold the same asks and the same bids,
and on each side the ladder and the diff keep the contract (both strictly
sorted under the side's ordering, no zero quantity in the ladder, every
zero-quantity entry of the diff names a price of the ladder), the two
`update_snapshot` leave the same sequence of levels on each side, and so the
same `get_best_ask()` and `get_best_bid()`. -/
theorem list_map_same_contract (lb : ListCpp.Limit_order_book) (mb : MapCpp.Limit_order_book)
    (respond : Respond) (hasks : lb.asks = mb.asks) (hbids : lb.bids = mb.bids)
    (ha : ladder_contract less lb.asks respond.asks)
    (hb : ladder_contract greater lb.bids respond.bids) :
    (ListCpp.update_snapshot respond lb).asks = (MapCpp.update_snapshot respond mb).asks ∧
    (ListCpp.update_snapshot respond lb).bids = (MapCpp.update_snapshot respond mb).bids ∧
    ListCpp.get_best_ask (ListCpp.update_snapshot respond lb) =
      MapCpp.get_best_ask (MapCpp.update_snapshot respond mb) ∧
    ListCpp.get_best_bid (ListCpp.update_snapshot respond lb) =
      MapCpp.get_best_bid (MapCpp.update_snapshot respond mb) := by
  obtain ⟨hSa, -, hDa, hza⟩ := ha
  obtain ⟨hSb, -, hDb, hzb⟩ := hb
  have h1 : (ListCpp.update_snapshot respond lb).asks =
      (MapCpp.update_snapshot respond mb).asks := by
    have hl := updater_resolved respond.asks lb.asks less less_order hSa hDa hza
    have hm := MapCpp.update_loop_resolved less_order respond.asks lb.asks hSa hDa
    have := is_resolved_unique less_order hl hm
    simpa [ListCpp.update_snapshot, MapCpp.update_snapshot, ← hasks] using this
  have h2 : (ListCpp.update_snapshot respond lb).bids =
      (MapCpp.update_snapshot respond mb).bids := by
    have hl := updater_resolved respond.bids lb.bids greater greater_order hSb hDb hzb
    have hm := MapCpp.update_loop_resolved greater_order respond.bids lb.bids hSb hDb
    have := is_resolved_unique greater_order hl hm
    simpa [ListCpp.update_snapshot, MapCpp.update_snapshot, ← hbids] using this
  refine ⟨h1, h2, ?_, ?_⟩
  · simp only [ListCpp.get_best_ask, MapCpp.get_best_ask, h1]
  · simp only [ListCpp.get_best_bid, MapCpp.get_best_bid, h2]

/-- Witness of C8: both books hold the ladders of scenario A and apply scenario B. -/
theorem list_map_same_contract_witness :
    ladder_contract less [(100.5, 3), (101.0, 5)] scenario_B.asks ∧
    ladder_contract greater [(100.0, 2), (99.5, 4)] scenario_B.bids ∧
    (ListCpp.update_snapshot scenario_B
        ⟨1, "", [(100.5, 3), (101.0, 5)], [(100.0, 2), (99.5, 4)], Event.snapshot⟩).asks =
      (MapCpp.update_snapshot scenario_B
        ⟨1, "", [(100.5, 3), (101.0, 5)], [(100.0, 2), (99.5, 4)], Event.snapshot⟩).asks := by
  have ha : ladder_contract less [(100.5, 3), (101.0, 5)] scenario_B.asks := by
    norm_num [ladder_contract, strictSorted, no_zero, zeros_present, less, scenario_B]
  have hb : ladder_contract greater [(100.0, 2), (99.5, 4)] scenario_B.bids := by
    norm_num [ladder_contract, strictSorted, no_zero, zeros_present, greater, scenario_B]
  exact ⟨ha, hb, (list_map_same_contract
    ⟨1, "", [(100.5, 3), (101.0, 5)], [(100.0, 2), (99.5, 4)], Event.snapshot⟩
    ⟨1, "", [(100.5, 3), (101.0, 5)], [(100.0, 2), (99.5, 4)], Event.snapshot⟩
    scenario_B rfl rfl ha hb).1⟩

/-- C9 (ask-list validation), the code at a failing input: the snapshot message
whose only ask is `[100.5, 2.5]` parsed without error, has no `ping` and has all
required members, and the quantity of its ask is not an int; `check_data`
accepts it as a snapshot, and the quantity then fails `GetInt()`.  The loop
reports an element only when both tests fail: it also passes `[100, 3]`, whose
price is not a double. -/
theorem ask_validation_gap :
    bad_ask_quantity_doc.parseError = none ∧
    bad_ask_quantity_doc.root.HasMember "ping" = some false ∧
    first_missing bad_ask_quantity_doc.root members = some none ∧
    ((Value.arr [.double 100.5, .double 2.5]).elem 1).map Value.IsInt = some false ∧
    check_data bad_ask_quantity_doc = some (Event.snapshot, "success") ∧
    Respond.read bad_ask_quantity_doc = none ∧
    value_error [.arr [.int 100, .int 3]] = some false := by
  refine ⟨rfl, by decide, by decide, rfl, by decide, rfl, by decide⟩

/-- C10 (bid-list validation), the code at a failing input: the snapshot message
with the valid ask `[100.5, 3]` and the bid `["a", "b"]` parsed without error,
has no `ping` and has all required members; neither member of its bid is a
number, yet `check_data` accepts it as a snapshot, so it goes on to
`set_snapshot`, where the bid fails the getters. -/
theorem bid_validation_gap :
    bad_bid_doc.parseError = none ∧
    bad_bid_doc.root.HasMember "ping" = some false ∧
    first_missing bad_bid_doc.root members = some none ∧
    value_error [.arr [.double 100.5, .int 3]] = some false ∧
    value_error [.arr [.str "a", .str "b"]] = some true ∧
    check_data bad_bid_doc = some (Event.snapshot, "success") ∧
    Respond.read bad_bid_doc = none := by
  refine ⟨rfl, by decide, by decide, by decide, by decide, by decide, rfl⟩

/-! ## `check_data` -/

theorem first_missing_of_has_all (holder : Value) :
    ∀ names : List String, has_all holder names → first_missing holder names = some none := by
  intro names
  induction names with
  | nil => intro _; rfl
  | cons n rest ih =>
    intro h
    have hn : holder.HasMember n = some true := h n (List.mem_cons_self _ _)
    have hrest : has_all holder rest := fun m hm => h m (List.mem_cons_of_mem _ hm)
    simp only [first_missing, hn]
    exact ih hrest

theorem first_missing_append (holder : Value) :
    ∀ (before rest : List String), has_all holder before →
      first_missing holder (before ++ rest) = first_missing holder rest := by
  intro before
  induction before with
  | nil => intro rest _; rfl
  | cons n before ih =>
    intro rest h
    have hn : holder.HasMember n = some true := h n (List.mem_cons_self _ _)
    have hrest : has_all holder before := fun m hm => h m (List.mem_cons_of_mem _ hm)
    simp only [List.cons_append, first_missing, hn]
    exact ih rest hrest

theorem first_missing_of_first_absent (holder : Value) (names : List String) (X : String)
    (h : first_absent holder names X) : first_missing holder names = some (some X) := by
  obtain ⟨before, after, hnames, hbefore, hX⟩ := h
  rw [hnames, first_missing_append holder before _ hbefore]
  simp only [first_missing, hX]

theorem member_of_HasMember (holder : Value) (name : String)
    (h : holder.HasMember name = some true) : ∃ v, holder.member name = some v := by
  cases holder with
  | obj m =>
    simp only [Value.HasMember, Option.some.injEq] at h
    simp only [Value.member]
    induction m with
    | nil => simp at h
    | cons kv m ih =>
      obtain ⟨k, v⟩ := kv
      by_cases hk : name = k
      · exact ⟨v, by simp [List.lookup, hk]⟩
      · have hk2 : (name == k) = false := by simpa using hk
        have hk3 : ¬ k = name := fun e => hk e.symm
        simp only [List.lookup, hk2]
        apply ih
        simpa [hk3] using h
  | null => simp [Value.HasMember] at h
  | bool _ => simp [Value.HasMember] at h
  | int _ => simp [Value.HasMember] at h
  | double _ => simp [Value.HasMember] at h
  | str _ => simp [Value.HasMember] at h
  | arr _ => simp [Value.HasMember] at h

theorem value_error_of_passes :
    ∀ asks : List Value, (∀ v ∈ asks, element_passes v) → value_error asks = some false := by
  intro asks
  induction asks with
  | nil => intro _; rfl
  | cons v rest ih =>
    intro h
    have hrest := ih (fun w hw => h w (List.mem_cons_of_mem _ hw))
    obtain ⟨v1, hv1, hok⟩ := h v (List.mem_cons_self _ _)
    rcases hok with hint | ⟨v0, hv0, hdouble⟩
    · simp [value_error, hv1, hint, hrest]
    · by_cases hint : v1.IsInt = true
      · simp [value_error, hv1, hint, hrest]
      · simp [value_error, hv1, hint, hv0, hdouble, hrest]

theorem exists_first_absent (holder : Value) :
    ∀ names : List String, (∃ n ∈ names, holder.HasMember n = some false) →
      ∃ X, first_absent holder names X := by
  intro names
  induction names with
  | nil => rintro ⟨n, hn, -⟩; simp at hn
  | cons m rest ih =>
    rintro ⟨n, hn, hfalse⟩
    have hsome : ∃ b, holder.HasMember m = some b := by
      cases holder with
      | obj kvs => exact ⟨_, rfl⟩
      | null => simp [Value.HasMember] at hfalse
      | bool _ => simp [Value.HasMember] at hfalse
      | int _ => simp [Value.HasMember] at hfalse
      | double _ => simp [Value.HasMember] at hfalse
      | str _ => simp [Value.HasMember] at hfalse
      | arr _ => simp [Value.HasMember] at hfalse
    obtain ⟨b, hb⟩ := hsome
    cases b with
    | false => exact ⟨m, [], rest, rfl, by intro k hk; simp at hk, hb⟩
    | true =>
      have hn2 : n ∈ rest := by
        rcases List.mem_cons.1 hn with h | h
        · rw [h, hb] at hfalse
          simp at hfalse
        · exact h
      obtain ⟨X, before, after, hnames, hbefore, hX⟩ := ih ⟨n, hn2, hfalse⟩
      refine ⟨X, m :: before, after, by rw [hnames]; rfl, ?_, hX⟩
      intro k hk
      rcases List.mem_cons.1 hk with h | h
      · rw [h]; exact hb
      · exact hbefore k h

/-- C11 (missing-field classification in `check_data`).  For a document that
parsed without error and has no `ping` member: if one of `ch`, `ts`, `tick` is
absent, there is a first absent one in this order, and the result is the error
`"error: no member: X"` for the first absent name `X`; otherwise the document
has a value `tick`, and if one of `asks`, `bids`, `event` is absent from `tick`,
there is a first absent one in this order, and the result is the error
`"error: no member: X"` for the first absent name `X`. -/
theorem missing_field_classified (document : Document)
    (hparse : document.parseError = none)
    (hping : document.root.HasMember "ping" = some false) :
    ((∃ n ∈ members, document.root.HasMember n = some false) →
      (∃ X, first_absent document.root members X) ∧
      ∀ X, first_absent document.root members X →
        check_data document = some (Event.error, "error: no member: " ++ X)) ∧
    (has_all document.root members →
      ∃ tick, document.root.member "tick" = some tick ∧
        ((∃ n ∈ tick_members, tick.HasMember n = some false) →
          (∃ X, first_absent tick tick_members X) ∧
          ∀ X, first_absent tick tick_members X →
            check_data document = some (Event.error, "error: no member: " ++ X))) := by
  constructor
  · intro hsome
    refine ⟨exists_first_absent _ _ hsome, fun X hX => ?_⟩
    have h1 := first_missing_of_first_absent _ _ _ hX
    simp only [check_data, hparse, hping, h1]
  · intro hall
    have h1 := first_missing_of_has_all _ _ hall
    obtain ⟨tick, htick⟩ := member_of_HasMember _ "tick" (hall "tick" (by simp [members]))
    refine ⟨tick, htick, fun hsome => ⟨exists_first_absent _ _ hsome, fun X hX => ?_⟩⟩
    have h2 := first_missing_of_first_absent _ _ _ hX
    simp only [check_data, hparse, hping, h1, htick, h2]

/-- Witness of C11: the message that lacks only `tick.bids` is classified as
`"error: no member: bids"`. -/
theorem missing_field_classified_witness :
    missing_bids_doc.parseError = none ∧
    missing_bids_doc.root.HasMember "ping" = some false ∧
    has_all missing_bids_doc.root members ∧
    first_absent (Value.obj [("asks", .arr [.arr [.double 100.5, .int 3]]),
      ("event", .str "snapshot")]) tick_members "bids" ∧
    check_data missing_bids_doc = some (Event.error, "error: no member: bids") := by
  have hparse : missing_bids_doc.parseError = none := rfl
  have hping : missing_bids_doc.root.HasMember "ping" = some false := by decide
  have hall : has_all missing_bids_doc.root members := by decide
  have habs : first_absent (Value.obj [("asks", .arr [.arr [.double 100.5, .int 3]]),
      ("event", .str "snapshot")]) tick_members "bids" :=
    ⟨["asks"], ["event"], rfl, by decide, by decide⟩
  refine ⟨hparse, hping, hall, habs, ?_⟩
  obtain ⟨tick, htick, h⟩ := (missing_field_classified missing_bids_doc hparse hping).2 hall
  have ht : tick = Value.obj [("asks", .arr [.arr [.double 100.5, .int 3]]),
      ("event", .str "snapshot")] := by
    have h2 : missing_bids_doc.root.member "tick" = some (Value.obj
        [("asks", .arr [.arr [.double 100.5, .int 3]]), ("event", .str "snapshot")]) := rfl
    rw [h2] at htick
    exact (Option.some.inj htick).symm
  rw [ht] at h
  exact (h ⟨"bids", by decide, by decide⟩).2 "bids" habs

/-- C12 (ping classification in `check_data`).  For every document that parsed
without error and has a top-level `ping` member, `check_data` returns
`(Event::ping, "ping")`, whatever else the document holds. -/
theorem ping_classified (document : Document)
    (hparse : document.parseError = none)
    (hping : document.root.HasMember "ping" = some true) :
    check_data document = some (Event.ping, "ping") := by
  simp only [check_data, hparse, hping]

/-- Witness of C12: the message with `"ping": 1` and no `tick`. -/
theorem ping_classified_witness :
    ping_doc.parseError = none ∧ ping_doc.root.HasMember "ping" = some true ∧
    ping_doc.root.HasMember "tick" = some false ∧
    check_data ping_doc = some (Event.ping, "ping") :=
  ⟨rfl, by decide, by decide, ping_classified ping_doc rfl (by decide)⟩

/-- C13 (event-kind dispatch in `check_data`).  For a document that parsed
without error, has no `ping` member, has `ch`, `ts` and `tick`, whose `tick` has
`asks`, `bids` and `event`, and whose `asks` is an array of elements that pass
the value test: `check_data` returns `Event::snapshot` when `tick.event` is the
string `"snapshot"` and `Event::update` for every other value of `tick.event`;
so it returns neither `error` nor `ping` nor `undef`. -/
theorem event_kind_dispatch (document : Document) (tick ev : Value) (asks : List Value)
    (hparse : document.parseError = none)
    (hping : document.root.HasMember "ping" = some false)
    (hmembers : has_all document.root members)
    (htick : document.root.member "tick" = some tick)
    (htickm : has_all tick tick_members)
    (hasks : tick.member "asks" = some (Value.arr asks))
    (hvalues : ∀ v ∈ asks, element_passes v)
    (hev : tick.member "event" = some ev) :
    (ev.eqStr "snapshot" = true → check_data document = some (Event.snapshot, "success")) ∧
    (ev.eqStr "snapshot" = false → check_data document = some (Event.update, "success: ")) ∧
    (∃ e msg, check_data document = some (e, msg) ∧ (e = Event.snapshot ∨ e = Event.update)) := by
  have h1 := first_missing_of_has_all _ _ hmembers
  have h2 := first_missing_of_has_all _ _ htickm
  have h3 := value_error_of_passes asks hvalues
  have hcd : check_data document =
      if ev.eqStr "snapshot" = true then some (Event.snapshot, "success")
      else some (Event.update, "success: ") := by
    simp only [check_data, hparse, hping, h1, htick, h2, hasks, Option.bind, Value.GetArray,
      h3, hev]
  refine ⟨fun h => by rw [hcd, if_pos h], fun h => by rw [hcd, if_neg (by simp [h])], ?_⟩
  by_cases h : ev.eqStr "snapshot" = true
  · exact ⟨_, _, by rw [hcd, if_pos h], Or.inl rfl⟩
  · exact ⟨_, _, by rw [hcd, if_neg h], Or.inr rfl⟩

/-- Witness of C13: the snapshot of scenario A. -/
theorem event_kind_dispatch_witness :
    scenario_A_doc.parseError = none ∧
    scenario_A_doc.root.HasMember "ping" = some false ∧
    has_all scenario_A_doc.root members ∧
    (Value.str "snapshot").eqStr "snapshot" = true ∧
    check_data scenario_A_doc = some (Event.snapshot, "success") := by
  refine ⟨rfl, by decide, by decide, by decide, ?_⟩
  refine (event_kind_dispatch scenario_A_doc
    (Value.obj [
      ("asks", .arr [.arr [.double 100.5, .int 3], .arr [.double 101.0, .int 5]]),
      ("bids", .arr [.arr [.double 100.0, .int 2], .arr [.double 99.5, .int 4]]),
      ("event", .str "snapshot")])
    (Value.str "snapshot")
    [.arr [.double 100.5, .int 3], .arr [.double 101.0, .int 5]]
    rfl (by decide) (by decide) rfl (by decide) rfl ?_ rfl).1 (by decide)
  intro v hv
  simp only [List.mem_cons, List.mem_singleton, List.not_mem_nil, or_false] at hv
  rcases hv with rfl | rfl
  · exact ⟨.int 3, rfl, Or.inl (by decide)⟩
  · exact ⟨.int 5, rfl, Or.inl (by decide)⟩

/-- C14 (rejected messages do not touch the book, `process_data` of `list.cpp`).
For every book state and every document that `check_data` classifies as
`Event::error` or `Event::ping`, `process_data` returns and leaves asks, bids,
time and `chanel` as they were; only the event tag changes, to the class of the
message. -/
theorem rejected_leaves_book (b : ListCpp.Limit_order_book) (document : Document)
    (ev : Event) (msg : String) (hcheck : check_data document = some (ev, msg))
    (hev : ev = Event.error ∨ ev = Event.ping) :
    ∃ after, ListCpp.process_data document b = some after ∧
      after.asks = b.asks ∧ after.bids = b.bids ∧ after.time = b.time ∧
      after.chanel = b.chanel ∧ after.event = ev := by
  rcases hev with h | h
  · subst h
    exact ⟨{ b with event := Event.error }, by simp only [ListCpp.process_data, hcheck],
      rfl, rfl, rfl, rfl, rfl⟩
  · subst h
    exact ⟨{ b with event := Event.ping }, by simp only [ListCpp.process_data, hcheck],
      rfl, rfl, rfl, rfl, rfl⟩

/-- Witness of C14: the ping message applied to the empty book. -/
theorem rejected_leaves_book_witness :
    check_data ping_doc = some (Event.ping, "ping") ∧
    ∃ after, ListCpp.process_data ping_doc ListCpp.empty = some after ∧
      after.asks = ListCpp.empty.asks ∧ after.bids = ListCpp.empty.bids ∧
      after.time = ListCpp.empty.time ∧ after.chanel = ListCpp.empty.chanel ∧
      after.event = Event.ping :=
  ⟨by decide, rejected_leaves_book ListCpp.empty ping_doc Event.ping "ping" (by decide)
    (Or.inr rfl)⟩

/-! ## Empty ladders -/

theorem updater_keeps : ∀ (doc list : List Level) (comp : ℚ → ℚ → Bool),
    list.length ≤ (updater doc list comp).length + zero_count doc := by
  intro doc list comp
  induction doc, list, comp using updater.induct with
  | case1 comp list => simp [updater.eq_1]
  | case2 comp doc hne => simp [updater.eq_2 _ _ hne]
  | case3 comp pair doc it list hc ih =>
    have hq : (pair.2 == 0) = false := by
      simp only [Bool.and_eq_true, bne_iff_ne, ne_eq] at hc
      simpa using hc.2
    rw [updater.eq_3, if_pos hc]
    simp only [zero_count, List.countP_cons, hq, List.length_cons] at ih ⊢
    omega
  | case4 comp pair doc it list hc heq hq ih =>
    rw [updater.eq_3, if_neg hc, if_pos heq, if_pos hq]
    simp only [zero_count, List.countP_cons, hq, List.length_cons] at ih ⊢
    simp only [if_true]
    omega
  | case5 comp pair doc it list hc heq hq ih =>
    rw [updater.eq_3, if_neg hc, if_pos heq, if_neg hq]
    simp only [zero_count, List.countP_cons, List.length_cons] at ih ⊢
    omega
  | case6 comp pair doc it list hc hne ih =>
    rw [updater.eq_3, if_neg hc, if_neg hne]
    simp only [zero_count, List.countP_cons, List.length_cons] at ih ⊢
    omega

theorem updater_nonempty (doc list : List Level) (comp : ℚ → ℚ → Bool)
    (h : zero_count doc < list.length) : updater doc list comp ≠ [] := by
  intro he
  have := updater_keeps doc list comp
  rw [he] at this
  simp only [List.length_nil] at this
  omega

theorem push_nonzero_nonempty (array : List Level) (h : has_level array) :
    push_nonzero [] array ≠ [] := by
  obtain ⟨v, hv, hq⟩ := h
  rw [push_nonzero_eq, List.nil_append]
  intro he
  have : v ∈ array.filter (fun v => v.2 != 0) := List.mem_filter.2 ⟨hv, by simpa using hq⟩
  rw [he] at this
  simp at this

theorem ListCpp.run_updates_nonempty (updates : List Respond) :
    ∀ b : ListCpp.Limit_order_book, b.asks ≠ [] ∧ b.bids ≠ [] →
      ListCpp.updates_keep_levels b updates →
      (ListCpp.run_updates b updates).asks ≠ [] ∧ (ListCpp.run_updates b updates).bids ≠ [] := by
  induction updates with
  | nil => intro b hb _; exact hb
  | cons r rs ih =>
    intro b _ hk
    obtain ⟨ha, hb, hrest⟩ := hk
    exact ih (ListCpp.update_snapshot r b)
      ⟨updater_nonempty _ _ _ ha, updater_nonempty _ _ _ hb⟩ hrest

theorem ListCpp.updates_keep_levels_take (updates : List Respond) :
    ∀ (b : ListCpp.Limit_order_book) (n : Nat), ListCpp.updates_keep_levels b updates →
      ListCpp.updates_keep_levels b (updates.take n) := by
  induction updates with
  | nil => intro b n h; simpa using h
  | cons r rs ih =>
    intro b n h
    cases n with
    | zero => exact trivial
    | succ n => exact ⟨h.1, h.2.1, ih _ n h.2.2⟩

/-- C15, as stated, fails: the asks of the default-constructed book hold no
level, and `get_best_ask()` on it reports no error; it dereferences the end
iterator, which is undefined. -/
theorem empty_ladder_counterexample :
    ListCpp.empty.asks = [] ∧
    query_outcome (ListCpp.get_best_ask ListCpp.empty) = Query_outcome.undefined ∧
    ¬ ∃ error, query_outcome (ListCpp.get_best_ask ListCpp.empty) =
      Query_outcome.reports error := by
  refine ⟨rfl, rfl, ?_⟩
  rintro ⟨error, h⟩
  cases h

/-- C15, amended (empty-ladder query).  For a book whose asks (resp. bids) ladder
holds no level, in the list-based and in the map-based book, `get_best_ask()`
(resp. `get_best_bid()`) returns no stored level and reports no error: it
dereferences `cbegin()` of the empty container, the end iterator, which is
undefined. -/
theorem empty_ladder_query :
    (∀ b : ListCpp.Limit_order_book, b.asks = [] →
      query_outcome (ListCpp.get_best_ask b) = Query_outcome.undefined) ∧
    (∀ b : ListCpp.Limit_order_book, b.bids = [] →
      query_outcome (ListCpp.get_best_bid b) = Query_outcome.undefined) ∧
    (∀ b : MapCpp.Limit_order_book, b.asks = [] →
      query_outcome (MapCpp.get_best_ask b) = Query_outcome.undefined) ∧
    (∀ b : MapCpp.Limit_order_book, b.bids = [] →
      query_outcome (MapCpp.get_best_bid b) = Query_outcome.undefined) := by
  refine ⟨?_, ?_, ?_, ?_⟩
  · intro b h
    simp only [ListCpp.get_best_ask, h, List.head?_nil, query_outcome]
  · intro b h
    simp only [ListCpp.get_best_bid, h, List.head?_nil, query_outcome]
  · intro b h
    simp only [MapCpp.get_best_ask, h, List.head?_nil, query_outcome]
  · intro b h
    simp only [MapCpp.get_best_bid, h, List.head?_nil, query_outcome]

/-- Witness of the amended C15: the default-constructed books. -/
theorem empty_ladder_query_witness :
    ListCpp.empty.asks = [] ∧ MapCpp.empty.bids = [] ∧
    query_outcome (ListCpp.get_best_ask ListCpp.empty) = Query_outcome.undefined ∧
    query_outcome (MapCpp.get_best_bid MapCpp.empty) = Query_outcome.undefined :=
  ⟨rfl, rfl, empty_ladder_query.1 ListCpp.empty rfl, empty_ladder_query.2.2.2 MapCpp.empty rfl⟩

/-- C16, as stated, fails: the snapshot with the ask `[2.0, 1]` and the bid
`[1.0, 1]` and the update with the single ask `[2.0, 0]` are accepted by
`check_data` and keep the feed contract; after the snapshot and the update the
asks are empty, and `get_best_ask()` dereferences the end iterator. -/
theorem empty_after_snapshot_counterexample :
    check_data one_level_snapshot_doc = some (Event.snapshot, "success") ∧
    Respond.read one_level_snapshot_doc = some one_level_snapshot ∧
    check_data delete_last_doc = some (Event.update, "success: ") ∧
    Respond.read delete_last_doc = some delete_last ∧
    ListCpp.feed_contract ListCpp.empty
      [.set_snapshot one_level_snapshot, .update_snapshot delete_last] ∧
    (ListCpp.update_snapshot delete_last
      (ListCpp.set_snapshot one_level_snapshot ListCpp.empty)).asks = [] ∧
    ListCpp.get_best_ask (ListCpp.update_snapshot delete_last
      (ListCpp.set_snapshot one_level_snapshot ListCpp.empty)) = none := by
  have hasks : (ListCpp.update_snapshot delete_last
      (ListCpp.set_snapshot one_level_snapshot ListCpp.empty)).asks = [] := by
    norm_num [delete_last, one_level_snapshot, ListCpp.update_snapshot, ListCpp.set_snapshot,
      ListCpp.empty, push_nonzero, updater, less]
  refine ⟨by decide, rfl, by decide, rfl, ?_, hasks, ?_⟩
  · norm_num [ListCpp.feed_contract, ListCpp.Call.contract, ListCpp.Call.apply,
      ListCpp.set_snapshot, ListCpp.empty, push_nonzero, strictSorted, zeros_present,
      one_level_snapshot, delete_last]
  · rw [ListCpp.get_best_ask, hasks]
    rfl

/-- C16, amended (no empty ladder after a snapshot).  For every book state
obtained by one `set_snapshot` whose message carries a pair of non-zero quantity
on each side, followed by any sequence of `update_snapshot` calls each of which
carries, on each side, fewer zero-quantity pairs than the ladder of that side
holds levels at that moment: after the snapshot and after every update both asks
and bids are non-empty, so `get_best_ask()` and `get_best_bid()` return a stored
level. -/
theorem no_empty_ladder_after_snapshot (b : ListCpp.Limit_order_book) (snapshot : Respond)
    (updates : List Respond) (hasks : has_level snapshot.asks) (hbids : has_level snapshot.bids)
    (hkeep : ListCpp.updates_keep_levels (ListCpp.set_snapshot snapshot b) updates) (n : Nat) :
    (ListCpp.run_updates (ListCpp.set_snapshot snapshot b) (updates.take n)).asks ≠ [] ∧
    (ListCpp.run_updates (ListCpp.set_snapshot snapshot b) (updates.take n)).bids ≠ [] ∧
    (∃ level, ListCpp.get_best_ask
      (ListCpp.run_updates (ListCpp.set_snapshot snapshot b) (updates.take n)) = some level) ∧
    (∃ level, ListCpp.get_best_bid
      (ListCpp.run_updates (ListCpp.set_snapshot snapshot b) (updates.take n)) = some level) := by
  have h0 : (ListCpp.set_snapshot snapshot b).asks ≠ [] ∧
      (ListCpp.set_snapshot snapshot b).bids ≠ [] :=
    ⟨push_nonzero_nonempty _ hasks, push_nonzero_nonempty _ hbids⟩
  have h := ListCpp.run_updates_nonempty (updates.take n) _ h0
    (ListCpp.updates_keep_levels_take updates _ n hkeep)
  refine ⟨h.1, h.2, ?_, ?_⟩
  · cases hl : (ListCpp.run_updates (ListCpp.set_snapshot snapshot b) (updates.take n)).asks with
    | nil => exact absurd hl h.1
    | cons a t => exact ⟨a, by simp [ListCpp.get_best_ask, hl]⟩
  · cases hl : (ListCpp.run_updates (ListCpp.set_snapshot snapshot b) (updates.take n)).bids with
    | nil => exact absurd hl h.2
    | cons a t => exact ⟨a, by simp [ListCpp.get_best_bid, hl]⟩

/-- Witness of the amended C16: scenario A, then an update that changes one
level on each side. -/
theorem no_empty_ladder_after_snapshot_witness :
    has_level scenario_A.asks ∧ has_level scenario_A.bids ∧
    ListCpp.updates_keep_levels (ListCpp.set_snapshot scenario_A ListCpp.empty)
      [⟨2, "market.depth", [(100.5, 0), (100.75, 7)], [(100.0, 9)]⟩] ∧
    (ListCpp.run_updates (ListCpp.set_snapshot scenario_A ListCpp.empty)
      ([(⟨2, "market.depth", [(100.5, 0), (100.75, 7)], [(100.0, 9)]⟩ : Respond)].take 1)).asks
      ≠ [] := by
  have ha : has_level scenario_A.asks := ⟨(100.5, 3), by simp [scenario_A], by decide⟩
  have hb : has_level scenario_A.bids := ⟨(100.0, 2), by simp [scenario_A], by decide⟩
  have hk : ListCpp.updates_keep_levels (ListCpp.set_snapshot scenario_A ListCpp.empty)
      [⟨2, "market.depth", [(100.5, 0), (100.75, 7)], [(100.0, 9)]⟩] := by
    norm_num [ListCpp.updates_keep_levels, zero_count, ListCpp.set_snapshot, scenario_A,
      push_nonzero]
  exact ⟨ha, hb, hk, (no_empty_ladder_after_snapshot ListCpp.empty scenario_A _ ha hb hk 1).1⟩

/-- C17 (scenarios A then B on the list-based book).  The two documents are
accepted by `check_data` and read by the getters as `scenario_A` and
`scenario_B`.  From the empty book, `set_snapshot` with scenario A gives
`get_best_ask() = (100.5, 3)`, `get_best_bid() = (100.0, 2)` and `get_time() = 1`;
then `update_snapshot` with scenario B leaves asks `[(100.75,7),(101.0,5)]`, so
`get_best_ask() = (100.75, 7)`, `get_best_bid()` is still `(100.0, 2)` and
`get_time() = 2`. -/
theorem scenario_A_then_B :
    check_data scenario_A_doc = some (Event.snapshot, "success") ∧
    Respond.read scenario_A_doc = some scenario_A ∧
    check_data scenario_B_doc = some (Event.update, "success: ") ∧
    Respond.read scenario_B_doc = some scenario_B ∧
    ListCpp.get_best_ask (ListCpp.set_snapshot scenario_A ListCpp.empty) = some (100.5, 3) ∧
    ListCpp.get_best_bid (ListCpp.set_snapshot scenario_A ListCpp.empty) = some (100.0, 2) ∧
    ListCpp.get_time (ListCpp.set_snapshot scenario_A ListCpp.empty) = 1 ∧
    (ListCpp.update_snapshot scenario_B (ListCpp.set_snapshot scenario_A ListCpp.empty)).asks =
      [(100.75, 7), (101.0, 5)] ∧
    ListCpp.get_best_ask
      (ListCpp.update_snapshot scenario_B (ListCpp.set_snapshot scenario_A ListCpp.empty)) =
      some (100.75, 7) ∧
    ListCpp.get_best_bid
      (ListCpp.update_snapshot scenario_B (ListCpp.set_snapshot scenario_A ListCpp.empty)) =
      some (100.0, 2) ∧
    ListCpp.get_time
      (ListCpp.update_snapshot scenario_B (ListCpp.set_snapshot scenario_A ListCpp.empty)) = 2 := by
  have hA : ListCpp.set_snapshot scenario_A ListCpp.empty =
      ⟨1, "market.depth", [(100.5, 3), (101.0, 5)], [(100.0, 2), (99.5, 4)], Event.undef⟩ := by
    simp [ListCpp.set_snapshot, ListCpp.empty, scenario_A, push_nonzero]
  have hasks : (ListCpp.update_snapshot scenario_B
      (ListCpp.set_snapshot scenario_A ListCpp.empty)).asks = [(100.75, 7), (101.0, 5)] := by
    rw [hA]
    norm_num [ListCpp.update_snapshot, scenario_B, updater, less]
  have hbids : (ListCpp.update_snapshot scenario_B
      (ListCpp.set_snapshot scenario_A ListCpp.empty)).bids = [(100.0, 2), (99.5, 4)] := by
    rw [hA]
    simp [ListCpp.update_snapshot, scenario_B, updater]
  refine ⟨by decide, rfl, by decide, rfl, ?_, ?_, ?_, hasks, ?_, ?_, rfl⟩
  · rw [hA]; rfl
  · rw [hA]; rfl
  · rw [hA]; rfl
  · rw [ListCpp.get_best_ask, hasks]; rfl
  · rw [ListCpp.get_best_bid, hbids]; rfl

/-! ## The map-based book -/

theorem MapCpp.snapshot_loop_sorted {comp : ℚ → ℚ → Bool} (ho : SideOrder comp) :
    ∀ (array m : List Level), strictSorted comp m →
      strictSorted comp (MapCpp.snapshot_loop comp m array) := by
  intro array
  induction array with
  | nil => intro m hm; exact hm
  | cons v rest ih =>
    intro m hm
    have hstep : MapCpp.snapshot_loop comp m (v :: rest) =
        MapCpp.snapshot_loop comp
          (if v.2 == 0 then m else StdMap.assign comp v.1 v.2 m) rest := rfl
    rw [hstep]
    by_cases h0 : (v.2 == 0) = true
    · rw [if_pos h0]; exact ih m hm
    · rw [if_neg h0]; exact ih _ (StdMap.assign_spec ho v.1 v.2 m hm).1

theorem MapCpp.update_loop_sorted {comp : ℚ → ℚ → Bool} (ho : SideOrder comp) :
    ∀ (array m : List Level), strictSorted comp m →
      strictSorted comp (MapCpp.update_loop comp m array) := by
  intro array
  induction array with
  | nil => intro m hm; exact hm
  | cons v rest ih =>
    intro m hm
    have hstep : MapCpp.update_loop comp m (v :: rest) =
        MapCpp.update_loop comp
          (if v.2 == 0 then StdMap.erase v.1 m else StdMap.assign comp v.1 v.2 m) rest := rfl
    rw [hstep]
    by_cases h0 : (v.2 == 0) = true
    · rw [if_pos h0]; exact ih _ (StdMap.erase_spec comp v.1 m hm).1
    · rw [if_neg h0]; exact ih _ (StdMap.assign_spec ho v.1 v.2 m hm).1

/-- Whatever the calls carry, the maps of the map-based book stay strictly sorted. -/
theorem MapCpp.run_sorted (calls : List MapCpp.Call) :
    ∀ b : MapCpp.Limit_order_book, strictSorted less b.asks ∧ strictSorted greater b.bids →
      strictSorted less (MapCpp.run b calls).asks ∧
      strictSorted greater (MapCpp.run b calls).bids := by
  induction calls with
  | nil => intro b hb; exact hb
  | cons c cs ih =>
    intro b hb
    apply ih (c.apply b)
    cases c with
    | set_snapshot respond =>
      exact ⟨MapCpp.snapshot_loop_sorted less_order _ [] List.Pairwise.nil,
        MapCpp.snapshot_loop_sorted greater_order _ [] List.Pairwise.nil⟩
    | update_snapshot respond =>
      exact ⟨MapCpp.update_loop_sorted less_order _ _ hb.1,
        MapCpp.update_loop_sorted greater_order _ _ hb.2⟩

/-- C18 (best-level correctness of the map-based book, no assumption on the
feed).  For every book state reached from the empty book by `set_snapshot` and
`update_snapshot` calls with arbitrary lists: if asks is non-empty,
`get_best_ask()` returns a stored level and every other stored ask has a
strictly higher price; if bids is non-empty, `get_best_bid()` returns a stored
level and every other stored bid has a strictly lower price. -/
theorem map_best_level_correct (calls : List MapCpp.Call) :
    ((MapCpp.run MapCpp.empty calls).asks ≠ [] →
      ∃ best, MapCpp.get_best_ask (MapCpp.run MapCpp.empty calls) = some best ∧
        best ∈ (MapCpp.run MapCpp.empty calls).asks ∧
        ∀ l ∈ (MapCpp.run MapCpp.empty calls).asks, l = best ∨ best.1 < l.1) ∧
    ((MapCpp.run MapCpp.empty calls).bids ≠ [] →
      ∃ best, MapCpp.get_best_bid (MapCpp.run MapCpp.empty calls) = some best ∧
        best ∈ (MapCpp.run MapCpp.empty calls).bids ∧
        ∀ l ∈ (MapCpp.run MapCpp.empty calls).bids, l = best ∨ l.1 < best.1) := by
  have hok := MapCpp.run_sorted calls MapCpp.empty ⟨List.Pairwise.nil, List.Pairwise.nil⟩
  constructor
  · intro hne
    obtain ⟨best, hb, hmem, hall⟩ := head_ranks_first hok.1 hne
    refine ⟨best, hb, hmem, fun l hl => ?_⟩
    rcases hall l hl with h1 | h1
    · exact Or.inl h1
    · exact Or.inr (by simpa [less] using h1)
  · intro hne
    obtain ⟨best, hb, hmem, hall⟩ := head_ranks_first hok.2 hne
    refine ⟨best, hb, hmem, fun l hl => ?_⟩
    rcases hall l hl with h1 | h1
    · exact Or.inl h1
    · exact Or.inr (by simpa [greater] using h1)

/-- Witness of C18: an unsorted snapshot with a repeated price, then an update
that deletes an absent price. -/
theorem map_best_level_correct_witness :
    (MapCpp.run MapCpp.empty
      [.set_snapshot ⟨1, "market.depth", [(2.0, 1), (1.0, 1), (2.0, 4)], []⟩,
       .update_snapshot ⟨2, "market.depth", [(3.0, 0)], []⟩]).asks = [(1.0, 1), (2.0, 4)] ∧
    ∃ best, MapCpp.get_best_ask (MapCpp.run MapCpp.empty
      [.set_snapshot ⟨1, "market.depth", [(2.0, 1), (1.0, 1), (2.0, 4)], []⟩,
       .update_snapshot ⟨2, "market.depth", [(3.0, 0)], []⟩]) = some best ∧
      best ∈ (MapCpp.run MapCpp.empty
        [.set_snapshot ⟨1, "market.depth", [(2.0, 1), (1.0, 1), (2.0, 4)], []⟩,
         .update_snapshot ⟨2, "market.depth", [(3.0, 0)], []⟩]).asks ∧
      ∀ l ∈ (MapCpp.run MapCpp.empty
        [.set_snapshot ⟨1, "market.depth", [(2.0, 1), (1.0, 1), (2.0, 4)], []⟩,
         .update_snapshot ⟨2, "market.depth", [(3.0, 0)], []⟩]).asks, l = best ∨ best.1 < l.1 := by
  have hasks : (MapCpp.run MapCpp.empty
      [.set_snapshot ⟨1, "market.depth", [(2.0, 1), (1.0, 1), (2.0, 4)], []⟩,
       .update_snapshot ⟨2, "market.depth", [(3.0, 0)], []⟩]).asks = [(1.0, 1), (2.0, 4)] := by
    norm_num [MapCpp.run, MapCpp.Call.apply, MapCpp.set_snapshot, MapCpp.update_snapshot,
      MapCpp.empty, MapCpp.snapshot_loop, MapCpp.update_loop, StdMap.assign, StdMap.erase, less]
  refine ⟨hasks, (map_best_level_correct _).1 ?_⟩
  rw [hasks]
  exact List.cons_ne_nil _ _

/-! ## The timestamp -/

theorem ListCpp.time_after_call (c : ListCpp.Call) (b : ListCpp.Limit_order_book) :
    ListCpp.get_time (c.apply b) = c.respond.ts := by
  cases c <;> rfl

theorem ListCpp.run_append (b : ListCpp.Limit_order_book) (calls : List ListCpp.Call)
    (c : ListCpp.Call) : ListCpp.run b (calls ++ [c]) = c.apply (ListCpp.run b calls) := by
  simp [ListCpp.run, List.foldl_append]

theorem ListCpp.time_after_take (b : ListCpp.Limit_order_book) (calls : List ListCpp.Call)
    (n : Nat) (h : n < calls.length) :
    ListCpp.get_time (ListCpp.run b (calls.take (n + 1))) = (calls.get ⟨n, h⟩).respond.ts := by
  have htake : calls.take (n + 1) = calls.take n ++ [calls.get ⟨n, h⟩] := by
    rw [List.take_succ, List.getElem?_eq_getElem h]
    rfl
  rw [htake, ListCpp.run_append, ListCpp.time_after_call]

/-- C19, as stated, fails: after the snapshot with `ts` 2 `get_time()` is 2, and
after the following update with `ts` 1 it is 1. -/
theorem timestamp_counterexample :
    ListCpp.get_time (ListCpp.run ListCpp.empty (backdated_calls.take 1)) = 2 ∧
    ListCpp.get_time (ListCpp.run ListCpp.empty (backdated_calls.take 2)) = 1 ∧
    ¬ ListCpp.get_time (ListCpp.run ListCpp.empty (backdated_calls.take 1)) ≤
      ListCpp.get_time (ListCpp.run ListCpp.empty (backdated_calls.take 2)) := by
  have h1 : ListCpp.get_time (ListCpp.run ListCpp.empty (backdated_calls.take 1)) = 2 := rfl
  have h2 : ListCpp.get_time (ListCpp.run ListCpp.empty (backdated_calls.take 2)) = 1 := rfl
  refine ⟨h1, h2, ?_⟩
  rw [h1, h2]
  decide

/-- C19, amended (timestamp).  After every `set_snapshot` or `update_snapshot`
call `get_time()` is the `ts` of that message; hence across a sequence of calls
applied to one book whose `ts` values never decrease, the value returned by
`get_time()` never decreases from one applied message to the next. -/
theorem timestamp_follows_feed (b : ListCpp.Limit_order_book) (calls : List ListCpp.Call)
    (hts : (calls.map (fun c => c.respond.ts)).Pairwise (fun s t => s ≤ t)) :
    (∀ (n : Nat) (h : n < calls.length),
      ListCpp.get_time (ListCpp.run b (calls.take (n + 1))) =
        (calls.get ⟨n, h⟩).respond.ts) ∧
    (∀ n : Nat, 1 ≤ n →
      ListCpp.get_time (ListCpp.run b (calls.take n)) ≤
        ListCpp.get_time (ListCpp.run b (calls.take (n + 1)))) := by
  refine ⟨fun n h => ListCpp.time_after_take b calls n h, ?_⟩
  intro n hn
  obtain ⟨m, rfl⟩ : ∃ m, n = m + 1 := ⟨n - 1, by omega⟩
  by_cases h : m + 1 < calls.length
  · have hm : m < calls.length := by omega
    rw [ListCpp.time_after_take b calls m hm, ListCpp.time_after_take b calls (m + 1) h]
    have hp := List.pairwise_iff_getElem.1 hts m (m + 1) (by simpa using hm) (by simpa using h)
      (by omega)
    simpa using hp
  · have h1 : calls.take (m + 1) = calls := List.take_of_length_le (by omega)
    have h2 : calls.take (m + 1 + 1) = calls := List.take_of_length_le (by omega)
    rw [h1, h2]

/-- Witness of the amended C19: scenario A (`ts` 1) followed by scenario B (`ts` 2). -/
theorem timestamp_follows_feed_witness :
    (([ListCpp.Call.set_snapshot scenario_A, .update_snapshot scenario_B]).map
      (fun c => c.respond.ts)).Pairwise (fun s t => s ≤ t) ∧
    ListCpp.get_time (ListCpp.run ListCpp.empty
      ([ListCpp.Call.set_snapshot scenario_A, .update_snapshot scenario_B].take 1)) ≤
    ListCpp.get_time (ListCpp.run ListCpp.empty
      ([ListCpp.Call.set_snapshot scenario_A, .update_snapshot scenario_B].take (1 + 1))) := by
  have hts : (([ListCpp.Call.set_snapshot scenario_A, .update_snapshot scenario_B]).map
      (fun c => c.respond.ts)).Pairwise (fun s t => s ≤ t) := by
    simp [ListCpp.Call.respond, scenario_A, scenario_B]
  exact ⟨hts, (timestamp_follows_feed ListCpp.empty _ hts).2 1 (le_refl 1)⟩

/-! ## The branches of the merge loop -/

/-- What the test of the third branch says on any input: the diff price ranks
strictly behind the cursor, or strictly ahead of it with quantity 0. -/
theorem advance_cases {comp : ℚ → ℚ → Bool} (ho : SideOrder comp) (pair it : Level)
    (hc : ¬ (comp pair.1 it.1 && pair.2 != 0) = true) (hne : ¬ (pair.1 == it.1) = true) :
    comp it.1 pair.1 = true ∨ (comp pair.1 it.1 = true ∧ pair.2 = 0) := by
  simp only [beq_iff_eq] at hne
  rcases ho.total _ _ hne with h | h
  · refine Or.inr ⟨h, ?_⟩
    by_contra hq
    exact hc (by simp [h, hq])
  · exact Or.inl h

theorem advance_behind_of_contract : ∀ (doc list : List Level) (comp : ℚ → ℚ → Bool),
    SideOrder comp → strictSorted comp list → strictSorted comp doc →
    zeros_present doc list →
    ∀ e ∈ updater_trace doc list comp, e.branch = Branch.advance →
      comp e.it.1 e.pair.1 = true := by
  intro doc list comp
  induction doc, list, comp using updater_trace.induct with
  | case1 list comp =>
    intro _ _ _ _ e he
    simp [updater_trace] at he
  | case2 comp head tail =>
    intro _ _ _ _ e he
    simp [updater_trace] at he
  | case3 comp pair doc it list hc ih =>
    intro ho hS hD hz e he hbr
    have hD2 := List.pairwise_cons.1 hD
    have hz2 : zeros_present doc (it :: list) :=
      fun d hd h0 => hz d (List.mem_cons_of_mem _ hd) h0
    rw [updater_trace, if_pos hc] at he
    rcases List.mem_cons.1 he with h | h
    · rw [h] at hbr
      cases hbr
    · exact ih ho hS hD2.2 hz2 e h hbr
  | case4 comp pair doc it list hc heq hq ih =>
    intro ho hS hD hz e he hbr
    have heq2 : pair.1 = it.1 := by simpa using heq
    have hD2 := List.pairwise_cons.1 hD
    have hS2 := List.pairwise_cons.1 hS
    have hz2 : zeros_present doc list := by
      intro d hd h0
      have h1 := hz d (List.mem_cons_of_mem _ hd) h0
      simp only [List.map_cons, List.mem_cons] at h1
      rcases h1 with h1 | h1
      · exact absurd (heq2.trans h1.symm) (ho.ne (hD2.1 d hd))
      · exact h1
    rw [updater_trace, if_neg hc, if_pos heq, if_pos hq] at he
    rcases List.mem_cons.1 he with h | h
    · rw [h] at hbr
      cases hbr
    · exact ih ho hS2.2 hD2.2 hz2 e h hbr
  | case5 comp pair doc it list hc heq hq ih =>
    intro ho hS hD hz e he hbr
    have heq2 : pair.1 = it.1 := by simpa using heq
    have hD2 := List.pairwise_cons.1 hD
    have hS2 := List.pairwise_cons.1 hS
    have hz2 : zeros_present doc list := by
      intro d hd h0
      have h1 := hz d (List.mem_cons_of_mem _ hd) h0
      simp only [List.map_cons, List.mem_cons] at h1
      rcases h1 with h1 | h1
      · exact absurd (heq2.trans h1.symm) (ho.ne (hD2.1 d hd))
      · exact h1
    rw [updater_trace, if_neg hc, if_pos heq, if_neg hq] at he
    rcases List.mem_cons.1 he with h | h
    · rw [h] at hbr
      cases hbr
    · exact ih ho hS2.2 hD2.2 hz2 e h hbr
  | case6 comp pair doc it list hc hne ih =>
    intro ho hS hD hz e he hbr
    have hne2 : pair.1 ≠ it.1 := by simpa using hne
    have hD2 := List.pairwise_cons.1 hD
    have hS2 := List.pairwise_cons.1 hS
    have hbehind : comp it.1 pair.1 = true := by
      rcases advance_cases ho pair it hc hne with h | ⟨h, hq⟩
      · exact h
      · have h1 := hz pair (List.mem_cons_self _ _) hq
        simp only [List.map_cons, List.mem_cons] at h1
        rcases h1 with h1 | h1
        · exact absurd h1 hne2
        · obtain ⟨q, hq2⟩ := mem_keys.1 h1
          exact absurd (hS2.1 _ hq2) (ho.asymm h)
    have hall : ∀ d ∈ pair :: doc, comp it.1 d.1 = true := by
      intro d hd
      rcases List.mem_cons.1 hd with rfl | hd
      · exact hbehind
      · exact ho.trans _ _ _ hbehind (hD2.1 d hd)
    have hz2 : zeros_present (pair :: doc) list := by
      intro d hd h0
      have h1 := hz d hd h0
      simp only [List.map_cons, List.mem_cons] at h1
      rcases h1 with h1 | h1
      · exact absurd h1.symm (ho.ne (hall d hd))
      · exact h1
    rw [updater_trace, if_neg hc, if_neg hne] at he
    rcases List.mem_cons.1 he with h | h
    · rw [h]
      exact hbehind
    · exact ih ho hS2.2 hD hz2 e h hbr

theorem advance_behind_or_zero : ∀ (doc list : List Level) (comp : ℚ → ℚ → Bool),
    SideOrder comp →
    ∀ e ∈ updater_trace doc list comp, e.branch = Branch.advance →
      comp e.it.1 e.pair.1 = true ∨ (comp e.pair.1 e.it.1 = true ∧ e.pair.2 = 0) := by
  intro doc list comp
  induction doc, list, comp using updater_trace.induct with
  | case1 list comp =>
    intro _ e he
    simp [updater_trace] at he
  | case2 comp head tail =>
    intro _ e he
    simp [updater_trace] at he
  | case3 comp pair doc it list hc ih =>
    intro ho e he hbr
    rw [updater_trace, if_pos hc] at he
    rcases List.mem_cons.1 he with h | h
    · rw [h] at hbr
      cases hbr
    · exact ih ho e h hbr
  | case4 comp pair doc it list hc heq hq ih =>
    intro ho e he hbr
    rw [updater_trace, if_neg hc, if_pos heq, if_pos hq] at he
    rcases List.mem_cons.1 he with h | h
    · rw [h] at hbr
      cases hbr
    · exact ih ho e h hbr
  | case5 comp pair doc it list hc heq hq ih =>
    intro ho e he hbr
    rw [updater_trace, if_neg hc, if_pos heq, if_neg hq] at he
    rcases List.mem_cons.1 he with h | h
    · rw [h] at hbr
      cases hbr
    · exact ih ho e h hbr
  | case6 comp pair doc it list hc hne ih =>
    intro ho e he hbr
    rw [updater_trace, if_neg hc, if_neg hne] at he
    rcases List.mem_cons.1 he with h | h
    · rw [h]
      exact advance_cases ho pair it hc hne
    · exact ih ho e h hbr

/-- C20, as stated, fails: the ladder `[(2.0, 1)]` and the diff `[(1.0, 0)]` are
sorted, the only iteration of the loop takes the branch that advances only the
ladder cursor, and there the diff price 1.0 ranks strictly ahead of the cursor
price 2.0 under `less`, not behind it. -/
theorem third_branch_counterexample :
    strictSorted less [(2.0, 1)] ∧ strictSorted less [(1.0, 0)] ∧
    (updater_trace [(1.0, 0)] [(2.0, 1)] less).map (fun e => (e.branch, e.pair, e.it)) =
      [(Branch.advance, (1.0, 0), (2.0, 1))] ∧
    less 1.0 2.0 = true ∧ less 2.0 1.0 = false := by
  refine ⟨by simp [strictSorted], by simp [strictSorted], ?_, ?_, ?_⟩
  · norm_num [updater_trace, less]
  · norm_num [less]
  · norm_num [less]

/-- C20, amended (third branch of the list-based merge loop).  For every ladder
and every diff that are both strictly sorted under the side's ordering (`less`
for asks, `greater` for bids) and such that every zero-quantity entry of the
diff names a price of the ladder: whenever the updater takes the branch that
advances only the ladder cursor, the current diff price ranks strictly behind
the price at the ladder cursor.  Without these assumptions the branch is also
taken when the diff price ranks strictly ahead and the diff quantity is 0, and
in no other case. -/
theorem third_branch_behind (comp : ℚ → ℚ → Bool) (hcomp : comp = less ∨ comp = greater)
    (list doc : List Level) :
    (strictSorted comp list → strictSorted comp doc → zeros_present doc list →
      ∀ e ∈ updater_trace doc list comp, e.branch = Branch.advance →
        comp e.it.1 e.pair.1 = true) ∧
    (∀ e ∈ updater_trace doc list comp, e.branch = Branch.advance →
      comp e.it.1 e.pair.1 = true ∨ (comp e.pair.1 e.it.1 = true ∧ e.pair.2 = 0)) := by
  have ho : SideOrder comp := by
    rcases hcomp with h | h
    · rw [h]; exact less_order
    · rw [h]; exact greater_order
  exact ⟨advance_behind_of_contract doc list comp ho, advance_behind_or_zero doc list comp ho⟩

/-- Witness of the amended C20: the ladder `[(1.0, 1), (3.0, 1)]` and the diff
`[(2.0, 5)]`, where the loop advances past 1.0 before it inserts 2.0. -/
theorem third_branch_behind_witness :
    strictSorted less [(1.0, 1), (3.0, 1)] ∧ strictSorted less [(2.0, 5)] ∧
    zeros_present [(2.0, 5)] [(1.0, 1), (3.0, 1)] ∧
    (updater_trace [(2.0, 5)] [(1.0, 1), (3.0, 1)] less).map (fun e => e.branch) =
      [Branch.advance, Branch.insert] ∧
    ∀ e ∈ updater_trace [(2.0, 5)] [(1.0, 1), (3.0, 1)] less, e.branch = Branch.advance →
      less e.it.1 e.pair.1 = true := by
  have h1 : strictSorted less [(1.0, 1), (3.0, 1)] := by norm_num [strictSorted, less]
  have h2 : strictSorted less [(2.0, 5)] := by simp [strictSorted]
  have h3 : zeros_present [(2.0, 5)] [(1.0, 1), (3.0, 1)] := by simp [zeros_present]
  refine ⟨h1, h2, h3, ?_,
    (third_branch_behind less (Or.inl rfl) [(1.0, 1), (3.0, 1)] [(2.0, 5)]).1 h1 h2 h3⟩
  norm_num [updater_trace, less]

/-! ## The merge loop, one iteration at a time -/

theorem loop_iterate_stable (comp : ℚ → ℚ → Bool) :
    ∀ (n : Nat) (s : Loop_state), loop_body comp s = none → loop_iterate comp n s = s := by
  intro n s h
  cases n with
  | zero => rfl
  | succ n => simp only [loop_iterate, h]

theorem loop_iterate_add (comp : ℚ → ℚ → Bool) :
    ∀ (n k : Nat) (s : Loop_state), loop_body comp (loop_iterate comp n s) = none →
      loop_iterate comp (n + k) s = loop_iterate comp n s := by
  intro n
  induction n with
  | zero =>
    intro k s h
    simp only [loop_iterate] at h
    simp only [Nat.zero_add, loop_iterate]
    exact loop_iterate_stable comp k s h
  | succ n ih =>
    intro k s h
    have hk : n + 1 + k = (n + k) + 1 := by omega
    rw [hk]
    cases hb : loop_body comp s with
    | none => simp only [loop_iterate, hb]
    | some next =>
      simp only [loop_iterate, hb] at h ⊢
      exact ih k next h

/-- The loop of `updater` run from any state: it leaves the `while` loop after a
number of iterations that is at most the number of diff entries and ladder
levels still ahead of the two cursors, every one of these iterations runs the
body, and the ladder after the tail append is what the recursion computes. -/
theorem loop_runs : ∀ (doc list : List Level) (comp : ℚ → ℚ → Bool) (front : List Level),
    ∃ n, n ≤ list.length + doc.length ∧
      loop_body comp (loop_iterate comp n ⟨front, list, doc⟩) = none ∧
      (∀ k, k < n → loop_body comp (loop_iterate comp k ⟨front, list, doc⟩) ≠ none) ∧
      (loop_iterate comp n ⟨front, list, doc⟩).tail_append = front ++ updater doc list comp ∧
      (loop_iterate comp n ⟨front, list, doc⟩).doc <:+ doc ∧
      n = (updater_trace doc list comp).length := by
  intro doc list comp
  induction doc, list, comp using updater.induct with
  | case1 comp list =>
    intro front
    refine ⟨0, Nat.zero_le _, ?_, fun k hk => absurd hk (Nat.not_lt_zero k), ?_, ?_, ?_⟩
    · simp [loop_iterate, loop_body]
    · simp [loop_iterate, Loop_state.tail_append, updater.eq_1]
    · exact List.suffix_refl _
    · simp [updater_trace]
  | case2 comp doc hne =>
    intro front
    refine ⟨0, Nat.zero_le _, ?_, fun k hk => absurd hk (Nat.not_lt_zero k), ?_, ?_, ?_⟩
    · cases doc with
      | nil => exact absurd rfl hne
      | cons d ds => simp [loop_iterate, loop_body]
    · simp [loop_iterate, Loop_state.tail_append, updater.eq_2 _ _ hne]
    · exact List.suffix_refl _
    · cases doc with
      | nil => exact absurd rfl hne
      | cons d ds => simp [updater_trace]
  | case3 comp pair doc it list hc ih =>
    intro front
    obtain ⟨n, hn, hstop, hrun, hres, hsuf, hlen⟩ := ih (front ++ [(pair.1, pair.2)])
    have hb : loop_body comp ⟨front, it :: list, pair :: doc⟩ =
        some ⟨front ++ [(pair.1, pair.2)], it :: list, doc⟩ := by
      simp only [loop_body, if_pos hc]
    refine ⟨n + 1, by simp only [List.length_cons] at hn ⊢; omega, ?_, ?_, ?_, ?_, ?_⟩
    · simpa only [loop_iterate, hb] using hstop
    · intro k hk
      cases k with
      | zero => simp [loop_iterate, hb]
      | succ k => simpa only [loop_iterate, hb] using hrun k (by omega)
    · simp only [loop_iterate, hb, hres]
      rw [updater.eq_3, if_pos hc]
      simp
    · simp only [loop_iterate, hb]
      exact hsuf.trans (List.suffix_cons _ _)
    · rw [updater_trace, if_pos hc, List.length_cons, hlen]
  | case4 comp pair doc it list hc heq hq ih =>
    intro front
    obtain ⟨n, hn, hstop, hrun, hres, hsuf, hlen⟩ := ih front
    have hb : loop_body comp ⟨front, it :: list, pair :: doc⟩ = some ⟨front, list, doc⟩ := by
      simp only [loop_body, if_neg hc, if_pos heq, if_pos hq]
    refine ⟨n + 1, by simp only [List.length_cons] at hn ⊢; omega, ?_, ?_, ?_, ?_, ?_⟩
    · simpa only [loop_iterate, hb] using hstop
    · intro k hk
      cases k with
      | zero => simp [loop_iterate, hb]
      | succ k => simpa only [loop_iterate, hb] using hrun k (by omega)
    · simp only [loop_iterate, hb, hres]
      rw [updater.eq_3, if_neg hc, if_pos heq, if_pos hq]
    · simp only [loop_iterate, hb]
      exact hsuf.trans (List.suffix_cons _ _)
    · rw [updater_trace, if_neg hc, if_pos heq, if_pos hq, List.length_cons, hlen]
  | case5 comp pair doc it list hc heq hq ih =>
    intro front
    obtain ⟨n, hn, hstop, hrun, hres, hsuf, hlen⟩ := ih (front ++ [(it.1, pair.2)])
    have hb : loop_body comp ⟨front, it :: list, pair :: doc⟩ =
        some ⟨front ++ [(it.1, pair.2)], list, doc⟩ := by
      simp only [loop_body, if_neg hc, if_pos heq, if_neg hq]
    refine ⟨n + 1, by simp only [List.length_cons] at hn ⊢; omega, ?_, ?_, ?_, ?_, ?_⟩
    · simpa only [loop_iterate, hb] using hstop
    · intro k hk
      cases k with
      | zero => simp [loop_iterate, hb]
      | succ k => simpa only [loop_iterate, hb] using hrun k (by omega)
    · simp only [loop_iterate, hb, hres]
      rw [updater.eq_3, if_neg hc, if_pos heq, if_neg hq]
      simp
    · simp only [loop_iterate, hb]
      exact hsuf.trans (List.suffix_cons _ _)
    · rw [updater_trace, if_neg hc, if_pos heq, if_neg hq, List.length_cons, hlen]
  | case6 comp pair doc it list hc hne ih =>
    intro front
    obtain ⟨n, hn, hstop, hrun, hres, hsuf, hlen⟩ := ih (front ++ [it])
    have hb : loop_body comp ⟨front, it :: list, pair :: doc⟩ =
        some ⟨front ++ [it], list, pair :: doc⟩ := by
      simp only [loop_body, if_neg hc, if_neg hne]
    refine ⟨n + 1, by simp only [List.length_cons] at hn ⊢; omega, ?_, ?_, ?_, ?_, ?_⟩
    · simpa only [loop_iterate, hb] using hstop
    · intro k hk
      cases k with
      | zero => simp [loop_iterate, hb]
      | succ k => simpa only [loop_iterate, hb] using hrun k (by omega)
    · simp only [loop_iterate, hb, hres]
      rw [updater.eq_3, if_neg hc, if_neg hne]
      simp
    · simp only [loop_iterate, hb]
      exact hsuf
    · rw [updater_trace, if_neg hc, if_neg hne, List.length_cons, hlen]

/-- The state `loop_exit` is the state in which the loop stops, and the tail
append on it gives the ladder that the recursion computes. -/
theorem loop_exit_spec (comp : ℚ → ℚ → Bool) (list doc : List Level) :
    loop_body comp (loop_exit comp list doc) = none ∧
    (loop_exit comp list doc).tail_append = updater doc list comp ∧
    (loop_exit comp list doc).doc <:+ doc := by
  obtain ⟨n, hn, hstop, -, hres, hsuf, -⟩ := loop_runs doc list comp []
  have hex : loop_exit comp list doc = loop_iterate comp n ⟨[], list, doc⟩ := by
    obtain ⟨k, hk⟩ : ∃ k, list.length + doc.length = n + k := ⟨_, (Nat.add_sub_cancel' hn).symm⟩
    rw [loop_exit, hk]
    exact loop_iterate_add comp n k _ hstop
  rw [hex]
  exact ⟨hstop, by simpa using hres, hsuf⟩

theorem loop_body_decreases (comp : ℚ → ℚ → Bool) (s next : Loop_state)
    (h : loop_body comp s = some next) :
    next.list.length + next.doc.length < s.list.length + s.doc.length ∧
    (next.doc.length < s.doc.length ∨ next.list.length < s.list.length) := by
  obtain ⟨front, list, doc⟩ := s
  cases doc with
  | nil => simp [loop_body] at h
  | cons pair doc =>
    cases list with
    | nil => simp [loop_body] at h
    | cons it list =>
      simp only [loop_body] at h
      split_ifs at h <;>
      · cases h
        simp only [List.length_cons]
        omega

/-! ## The frame of the updater -/

/-- The levels of the ladder whose price the diff does not mention. -/
theorem untouched_cons (pair : Level) (doc list : List Level) :
    (list.filter (fun s => decide (s.1 ∉ (pair :: doc).map Prod.fst))).Sublist
      (list.filter (fun s => decide (s.1 ∉ doc.map Prod.fst))) := by
  apply List.monotone_filter_right
  intro a ha
  simp only [List.map_cons, List.mem_cons, not_or, decide_eq_true_eq] at ha ⊢
  exact ha.2

theorem untouched_head (pair it : Level) (doc list : List Level) (heq : pair.1 = it.1) :
    (it :: list).filter (fun s => decide (s.1 ∉ (pair :: doc).map Prod.fst)) =
      list.filter (fun s => decide (s.1 ∉ (pair :: doc).map Prod.fst)) := by
  rw [List.filter_cons_of_neg]
  simp [heq]

theorem updater_frame_sublist : ∀ (doc list : List Level) (comp : ℚ → ℚ → Bool),
    (list.filter (fun s => decide (s.1 ∉ doc.map Prod.fst))).Sublist (updater doc list comp) := by
  intro doc list comp
  induction doc, list, comp using updater.induct with
  | case1 comp list =>
    rw [updater.eq_1]
    exact List.filter_sublist _
  | case2 comp doc hne =>
    simp
  | case3 comp pair doc it list hc ih =>
    rw [updater.eq_3, if_pos hc]
    exact ((untouched_cons pair doc (it :: list)).trans ih).cons _
  | case4 comp pair doc it list hc heq hq ih =>
    have heq2 : pair.1 = it.1 := by simpa using heq
    rw [updater.eq_3, if_neg hc, if_pos heq, if_pos hq, untouched_head pair it doc list heq2]
    exact (untouched_cons pair doc list).trans ih
  | case5 comp pair doc it list hc heq hq ih =>
    have heq2 : pair.1 = it.1 := by simpa using heq
    rw [updater.eq_3, if_neg hc, if_pos heq, if_neg hq, untouched_head pair it doc list heq2]
    exact ((untouched_cons pair doc list).trans ih).cons _
  | case6 comp pair doc it list hc hne ih =>
    rw [updater.eq_3, if_neg hc, if_neg hne]
    by_cases hmem : it.1 ∉ (pair :: doc).map Prod.fst
    · rw [List.filter_cons_of_pos (by simpa using hmem)]
      exact ih.cons₂ _
    · rw [List.filter_cons_of_neg (by simpa using hmem)]
      exact ih.cons _

/-- C21 (frame of the list-based updater, no sortedness assumption).  For every
book and every update, on each side the levels of the ladder whose price does
not occur in the diff, taken in ladder order, form a sublist of the ladder after
`update_snapshot`: each is still present with its quantity unchanged, and they
keep their relative order. -/
theorem updater_frame (b : ListCpp.Limit_order_book) (respond : Respond) :
    (b.asks.filter (fun s => decide (s.1 ∉ respond.asks.map Prod.fst))).Sublist
      (ListCpp.update_snapshot respond b).asks ∧
    (b.bids.filter (fun s => decide (s.1 ∉ respond.bids.map Prod.fst))).Sublist
      (ListCpp.update_snapshot respond b).bids ∧
    (∀ s ∈ b.asks, s.1 ∉ respond.asks.map Prod.fst →
      s ∈ (ListCpp.update_snapshot respond b).asks) ∧
    (∀ s ∈ b.bids, s.1 ∉ respond.bids.map Prod.fst →
      s ∈ (ListCpp.update_snapshot respond b).bids) := by
  have ha := updater_frame_sublist respond.asks b.asks less
  have hb := updater_frame_sublist respond.bids b.bids greater
  refine ⟨ha, hb, ?_, ?_⟩
  · intro s hs hfree
    exact ha.subset (List.mem_filter.2 ⟨hs, by simpa using hfree⟩)
  · intro s hs hfree
    exact hb.subset (List.mem_filter.2 ⟨hs, by simpa using hfree⟩)

/-- Witness of C21: an unsorted ladder and an unsorted diff. -/
theorem updater_frame_witness :
    ((3.0, 1) : Level) ∈ [((3.0, 1) : Level), (1.0, 2), (2.0, 3)] ∧
    (3.0 : ℚ) ∉ ([((2.0, 0) : Level), (1.0, 9)]).map Prod.fst ∧
    ((3.0, 1) : Level) ∈ (ListCpp.update_snapshot ⟨2, "market.depth", [(2.0, 0), (1.0, 9)], []⟩
      ⟨1, "market.depth", [(3.0, 1), (1.0, 2), (2.0, 3)], [], Event.snapshot⟩).asks := by
  have h1 : ((3.0, 1) : Level) ∈ [((3.0, 1) : Level), (1.0, 2), (2.0, 3)] := by simp
  have h2 : (3.0 : ℚ) ∉ ([((2.0, 0) : Level), (1.0, 9)]).map Prod.fst := by norm_num
  exact ⟨h1, h2, (updater_frame
    ⟨1, "market.depth", [(3.0, 1), (1.0, 2), (2.0, 3)], [], Event.snapshot⟩
    ⟨2, "market.depth", [(2.0, 0), (1.0, 9)], []⟩).2.2.1 (3.0, 1) h1 h2⟩

/-- C22 (tail append of the list-based updater).  When the ladder cursor is at
the end as the loop stops, the ladder after the updater is the ladder built so
far followed by the diff entries not yet consumed, in diff order and whatever
they hold; these entries are a tail of the diff.  In particular on an empty
ladder the updater returns the diff as it is, so after `update_snapshot` on a
book with an empty side that side equals the diff list, zero-quantity entries
included. -/
theorem tail_append_unfiltered (comp : ℚ → ℚ → Bool) :
    (∀ list doc : List Level, (loop_exit comp list doc).list = [] →
      updater doc list comp = (loop_exit comp list doc).front ++ (loop_exit comp list doc).doc ∧
      (loop_exit comp list doc).doc <:+ doc) ∧
    (∀ doc : List Level, updater doc [] comp = doc) ∧
    (∀ (b : ListCpp.Limit_order_book) (respond : Respond), b.asks = [] →
      (ListCpp.update_snapshot respond b).asks = respond.asks) ∧
    (∀ (b : ListCpp.Limit_order_book) (respond : Respond), b.bids = [] →
      (ListCpp.update_snapshot respond b).bids = respond.bids) := by
  have hnil : ∀ (c : ℚ → ℚ → Bool) (doc : List Level), updater doc [] c = doc := by
    intro c doc
    cases doc with
    | nil => rw [updater.eq_1]
    | cons d ds => rw [updater.eq_2 _ _ (by simp)]
  refine ⟨?_, hnil comp, ?_, ?_⟩
  · intro list doc hend
    obtain ⟨-, hres, hsuf⟩ := loop_exit_spec comp list doc
    refine ⟨?_, hsuf⟩
    rw [← hres, Loop_state.tail_append, hend, List.append_nil]
  · intro b respond h
    simp only [ListCpp.update_snapshot, h, hnil]
  · intro b respond h
    simp only [ListCpp.update_snapshot, h, hnil]

/-- Witness of C22: the update with the single ask `[3.0, 0]` applied to the
empty book leaves that zero-quantity entry as the only ask. -/
theorem tail_append_unfiltered_witness :
    ListCpp.empty.asks = [] ∧
    (ListCpp.update_snapshot zero_update ListCpp.empty).asks = [(3.0, 0)] := by
  refine ⟨rfl, ?_⟩
  rw [(tail_append_unfiltered less).2.2.1 ListCpp.empty zero_update rfl]
  rfl

/-- C23 (termination of the list-based merge).  For every ladder and every diff,
sorted or not, the `while` loop of the updater stops after a number `n` of
iterations that is at most the number of levels plus the number of diff entries:
each of the first `n` tests of the condition succeeds, the next one fails, and
the tail append then gives the ladder that `updater` returns.  Every iteration
moves the diff cursor or the ladder cursor forward, so the number of elements
ahead of the two cursors strictly decreases. -/
theorem merge_terminates (comp : ℚ → ℚ → Bool) (list doc : List Level) :
    (∃ n, n ≤ list.length + doc.length ∧
      loop_body comp (loop_iterate comp n ⟨[], list, doc⟩) = none ∧
      (∀ k, k < n → loop_body comp (loop_iterate comp k ⟨[], list, doc⟩) ≠ none) ∧
      (loop_iterate comp n ⟨[], list, doc⟩).tail_append = updater doc list comp) ∧
    (∀ s next : Loop_state, loop_body comp s = some next →
      next.list.length + next.doc.length < s.list.length + s.doc.length ∧
      (next.doc.length < s.doc.length ∨ next.list.length < s.list.length)) := by
  refine ⟨?_, loop_body_decreases comp⟩
  obtain ⟨n, hn, hstop, hrun, hres, -, -⟩ := loop_runs doc list comp []
  exact ⟨n, hn, hstop, hrun, by simpa using hres⟩

/-! ## The map-based book on arbitrary feeds -/

theorem StdMap.mem_assign (comp : ℚ → ℚ → Bool) (k : ℚ) (v : Int) :
    ∀ (m : List Level) (x : Level), x ∈ StdMap.assign comp k v m → x = (k, v) ∨ x ∈ m := by
  intro m
  induction m with
  | nil =>
    intro x hx
    simp only [StdMap.assign, List.mem_singleton] at hx
    exact Or.inl hx
  | cons n m ih =>
    intro x hx
    unfold StdMap.assign at hx
    by_cases hk : k = n.1
    · rw [if_pos (by simpa using hk)] at hx
      rcases List.mem_cons.1 hx with h | h
      · exact Or.inl (by rw [h, hk])
      · exact Or.inr (List.mem_cons_of_mem _ h)
    · rw [if_neg (by simpa using hk)] at hx
      by_cases hc : comp k n.1 = true
      · rw [if_pos hc] at hx
        rcases List.mem_cons.1 hx with h | h
        · exact Or.inl h
        · exact Or.inr h
      · rw [if_neg hc] at hx
        rcases List.mem_cons.1 hx with h | h
        · exact Or.inr (by rw [h]; exact List.mem_cons_self _ _)
        · rcases ih x h with h2 | h2
          · exact Or.inl h2
          · exact Or.inr (List.mem_cons_of_mem _ h2)

theorem MapCpp.snapshot_loop_no_zero (comp : ℚ → ℚ → Bool) :
    ∀ (array m : List Level), no_zero m → no_zero (MapCpp.snapshot_loop comp m array) := by
  intro array
  induction array with
  | nil => intro m hm; exact hm
  | cons v rest ih =>
    intro m hm
    have hstep : MapCpp.snapshot_loop comp m (v :: rest) =
        MapCpp.snapshot_loop comp
          (if v.2 == 0 then m else StdMap.assign comp v.1 v.2 m) rest := rfl
    rw [hstep]
    by_cases h0 : (v.2 == 0) = true
    · rw [if_pos h0]; exact ih m hm
    · rw [if_neg h0]
      apply ih
      intro x hx
      rcases StdMap.mem_assign comp v.1 v.2 m x hx with h | h
      · rw [h]; simpa using h0
      · exact hm x h

theorem MapCpp.update_loop_no_zero (comp : ℚ → ℚ → Bool) :
    ∀ (array m : List Level), no_zero m → no_zero (MapCpp.update_loop comp m array) := by
  intro array
  induction array with
  | nil => intro m hm; exact hm
  | cons v rest ih =>
    intro m hm
    have hstep : MapCpp.update_loop comp m (v :: rest) =
        MapCpp.update_loop comp
          (if v.2 == 0 then StdMap.erase v.1 m else StdMap.assign comp v.1 v.2 m) rest := rfl
    rw [hstep]
    by_cases h0 : (v.2 == 0) = true
    · rw [if_pos h0]
      apply ih
      intro x hx
      exact hm x (List.mem_filter.1 hx).1
    · rw [if_neg h0]
      apply ih
      intro x hx
      rcases StdMap.mem_assign comp v.1 v.2 m x hx with h | h
      · rw [h]; simpa using h0
      · exact hm x h

theorem MapCpp.run_no_zero (calls : List MapCpp.Call) :
    ∀ b : MapCpp.Limit_order_book, no_zero b.asks ∧ no_zero b.bids →
      no_zero (MapCpp.run b calls).asks ∧ no_zero (MapCpp.run b calls).bids := by
  induction calls with
  | nil => intro b hb; exact hb
  | cons c cs ih =>
    intro b hb
    apply ih (c.apply b)
    cases c with
    | set_snapshot respond =>
      exact ⟨MapCpp.snapshot_loop_no_zero less _ [] (fun x hx => by simp at hx),
        MapCpp.snapshot_loop_no_zero greater _ [] (fun x hx => by simp at hx)⟩
    | update_snapshot respond =>
      exact ⟨MapCpp.update_loop_no_zero less _ _ hb.1,
        MapCpp.update_loop_no_zero greater _ _ hb.2⟩

/-- C24 (no zero-quantity residue in the map-based book, no assumption on the
feed).  Starting from the empty book, after every call of any sequence of
`set_snapshot` and `update_snapshot` calls with arbitrary lists, no level stored
in asks or bids has quantity 0. -/
theorem map_no_zero_residue (calls : List MapCpp.Call) (n : Nat) :
    no_zero (MapCpp.run MapCpp.empty (calls.take n)).asks ∧
    no_zero (MapCpp.run MapCpp.empty (calls.take n)).bids :=
  MapCpp.run_no_zero (calls.take n) MapCpp.empty
    ⟨fun x hx => by simp [MapCpp.empty] at hx, fun x hx => by simp [MapCpp.empty] at hx⟩

/-- The nodes of the map after the update loop: for a price that the diff
mentions, the last entry for it decides (a node with its quantity if that is
not 0, no node otherwise); for any other price, the node the map had. -/
theorem MapCpp.update_loop_mem {comp : ℚ → ℚ → Bool} (ho : SideOrder comp) :
    ∀ (array m : List Level), strictSorted comp m → ∀ x : Level,
      (x ∈ MapCpp.update_loop comp m array ↔
        match last_quantity array x.1 with
        | some q => q ≠ 0 ∧ x.2 = q
        | none => x ∈ m) := by
  intro array
  induction array with
  | nil =>
    intro m _ x
    simp [MapCpp.update_loop, last_quantity]
  | cons v rest ih =>
    intro m hm x
    have hstep : MapCpp.update_loop comp m (v :: rest) =
        MapCpp.update_loop comp
          (if v.2 == 0 then StdMap.erase v.1 m else StdMap.assign comp v.1 v.2 m) rest := rfl
    rw [hstep]
    by_cases h0 : v.2 = 0
    · rw [if_pos (by simpa using h0)]
      obtain ⟨hs, hmem⟩ := StdMap.erase_spec comp v.1 m hm
      rw [ih _ hs x]
      simp only [last_quantity]
      cases hl : last_quantity rest x.1 with
      | some q => simp
      | none =>
        simp only [hmem]
        by_cases hk : v.1 = x.1
        · simp only [if_pos hk, h0]
          constructor
          · intro h; exact absurd hk.symm h.2
          · intro h; exact absurd rfl h.1
        · simp only [if_neg hk]
          exact ⟨fun h => h.1, fun h => ⟨h, fun e => hk e.symm⟩⟩
    · rw [if_neg (by simpa using h0)]
      obtain ⟨hs, hmem⟩ := StdMap.assign_spec ho v.1 v.2 m hm
      rw [ih _ hs x]
      simp only [last_quantity]
      cases hl : last_quantity rest x.1 with
      | some q => simp
      | none =>
        simp only [hmem]
        by_cases hk : v.1 = x.1
        · simp only [if_pos hk]
          constructor
          · rintro (h | h)
            · rw [h]; exact ⟨h0, rfl⟩
            · exact absurd hk.symm h.2
          · intro h
            exact Or.inl (Prod.ext hk.symm h.2)
        · simp only [if_neg hk]
          constructor
          · rintro (h | h)
            · exact absurd (by rw [h]) hk
            · exact h.1
          · intro h
            exact Or.inr ⟨h, fun e => hk e.symm⟩

theorem MapCpp.update_loop_twice {comp : ℚ → ℚ → Bool} (ho : SideOrder comp)
    (array m : List Level) (hm : strictSorted comp m) :
    MapCpp.update_loop comp (MapCpp.update_loop comp m array) array =
      MapCpp.update_loop comp m array := by
  have h1 := MapCpp.update_loop_sorted ho array m hm
  have h2 := MapCpp.update_loop_sorted ho array _ h1
  apply strictSorted_unique ho h2 h1
  intro x
  rw [MapCpp.update_loop_mem ho array _ h1 x]
  cases hl : last_quantity array x.1 with
  | some q =>
    rw [MapCpp.update_loop_mem ho array m hm x, hl]
  | none => rfl

/-- C25 (update idempotence in the map-based book).  For every book whose maps
are in key order, as every `std::map` is, and in particular for every book
reached from the empty book by any calls, and for every update payload (any
order, repeated prices allowed): applying `update_snapshot` with the payload
twice in a row leaves the same book, in asks, bids and time, as applying it
once. -/
theorem map_update_idempotent (respond : Respond) :
    (∀ b : MapCpp.Limit_order_book, strictSorted less b.asks → strictSorted greater b.bids →
      MapCpp.update_snapshot respond (MapCpp.update_snapshot respond b) =
        MapCpp.update_snapshot respond b) ∧
    (∀ calls : List MapCpp.Call,
      MapCpp.update_snapshot respond
          (MapCpp.update_snapshot respond (MapCpp.run MapCpp.empty calls)) =
        MapCpp.update_snapshot respond (MapCpp.run MapCpp.empty calls)) := by
  have hmain : ∀ b : MapCpp.Limit_order_book, strictSorted less b.asks →
      strictSorted greater b.bids →
      MapCpp.update_snapshot respond (MapCpp.update_snapshot respond b) =
        MapCpp.update_snapshot respond b := by
    intro b ha hb
    simp only [MapCpp.update_snapshot, MapCpp.update_loop_twice less_order _ _ ha,
      MapCpp.update_loop_twice greater_order _ _ hb]
  refine ⟨hmain, fun calls => ?_⟩
  have hs := MapCpp.run_sorted calls MapCpp.empty ⟨List.Pairwise.nil, List.Pairwise.nil⟩
  exact hmain _ hs.1 hs.2

/-- Witness of C25: an unsorted update with a repeated price, applied to the
ladders of scenario A. -/
theorem map_update_idempotent_witness :
    strictSorted less [((100.5, 3) : Level), (101.0, 5)] ∧
    strictSorted greater [((100.0, 2) : Level), (99.5, 4)] ∧
    MapCpp.update_snapshot ⟨2, "market.depth", [(101.0, 0), (100.75, 7), (101.0, 8)], []⟩
      (MapCpp.update_snapshot ⟨2, "market.depth", [(101.0, 0), (100.75, 7), (101.0, 8)], []⟩
        ⟨1, "market.depth", [(100.5, 3), (101.0, 5)], [(100.0, 2), (99.5, 4)],
          Event.snapshot⟩) =
    MapCpp.update_snapshot ⟨2, "market.depth", [(101.0, 0), (100.75, 7), (101.0, 8)], []⟩
      ⟨1, "market.depth", [(100.5, 3), (101.0, 5)], [(100.0, 2), (99.5, 4)], Event.snapshot⟩ := by
  have h1 : strictSorted less [((100.5, 3) : Level), (101.0, 5)] := by
    norm_num [strictSorted, less]
  have h2 : strictSorted greater [((100.0, 2) : Level), (99.5, 4)] := by
    norm_num [strictSorted, greater]
  exact ⟨h1, h2, (map_update_idempotent
    ⟨2, "market.depth", [(101.0, 0), (100.75, 7), (101.0, 8)], []⟩).1
    ⟨1, "market.depth", [(100.5, 3), (101.0, 5)], [(100.0, 2), (99.5, 4)], Event.snapshot⟩
    h1 h2⟩

/-! ## The mutators on the document -/

theorem read_nonzero_levels_of_read_levels :
    ∀ (array : List Value) (ls : List Level), read_levels array = some ls →
      read_nonzero_levels array = some (ls.filter (fun v => v.2 != 0)) := by
  intro array
  induction array with
  | nil =>
    intro ls h
    simp only [read_levels, Option.some.injEq] at h
    subst h
    rfl
  | cons v rest ih =>
    intro ls h
    simp only [read_levels] at h
    cases hl : read_level v with
    | none => simp [hl] at h
    | some l =>
      cases hr : read_levels rest with
      | none => simp [hl, hr] at h
      | some rs =>
        simp only [hl, hr, Option.some.injEq] at h
        subst h
        have hrest := ih rs hr
        obtain ⟨p, q⟩ := l
        simp only [read_level] at hl
        cases hp : (v.elem 0).bind Value.GetDouble with
        | none => simp [hp] at hl
        | some p2 =>
          cases hq : (v.elem 1).bind Value.GetInt with
          | none => simp [hp, hq] at hl
          | some q2 =>
            simp only [hp, hq, Option.some.injEq, Prod.mk.injEq] at hl
            obtain ⟨rfl, rfl⟩ := hl
            by_cases h0 : q2 = 0
            · simp [read_nonzero_levels, read_nonzero_level, hq, h0, hrest]
            · simp [read_nonzero_levels, read_nonzero_level, hq, hp, h0, hrest]

/-- On a document that `Respond.read` accepts, `set_snapshot` reads what
`Respond.read` returns. -/
theorem ListCpp.set_snapshot_doc_of_read (document : Document) (respond : Respond)
    (b : ListCpp.Limit_order_book) (h : Respond.read document = some respond) :
    ListCpp.set_snapshot_doc document b = some (ListCpp.set_snapshot respond b) := by
  simp only [Respond.read] at h
  cases hts : (document.root.member "ts").bind Value.GetUint64 with
  | none => simp [hts] at h
  | some ts =>
    cases hch : (document.root.member "ch").bind Value.GetString with
    | none => simp [hts, hch] at h
    | some ch =>
      cases ha : (((document.root.member "tick").bind (fun t => t.member "asks")).bind
          Value.GetArray).bind read_levels with
      | none => simp [hts, hch, ha] at h
      | some asks =>
        cases hb : (((document.root.member "tick").bind (fun t => t.member "bids")).bind
            Value.GetArray).bind read_levels with
        | none => simp [hts, hch, ha, hb] at h
        | some bids =>
          simp only [hts, hch, ha, hb, Option.some.injEq] at h
          subst h
          obtain ⟨aarr, haarr, hra⟩ := Option.bind_eq_some.1 ha
          obtain ⟨barr, hbarr, hrb⟩ := Option.bind_eq_some.1 hb
          have h1 : (tick_array document "asks").bind read_nonzero_levels =
              some (asks.filter (fun v => v.2 != 0)) := by
            simp only [tick_array, haarr, Option.some_bind]
            exact read_nonzero_levels_of_read_levels _ _ hra
          have h2 : (tick_array document "bids").bind read_nonzero_levels =
              some (bids.filter (fun v => v.2 != 0)) := by
            simp only [tick_array, hbarr, Option.some_bind]
            exact read_nonzero_levels_of_read_levels _ _ hrb
          simp only [ListCpp.set_snapshot_doc, hts, hch, h1, h2, ListCpp.set_snapshot,
            push_nonzero_eq, List.nil_append, List.filter_filter, Bool.and_self]

/-- On a document that `Respond.read` accepts, `update_snapshot` reads what
`Respond.read` returns. -/
theorem ListCpp.update_snapshot_doc_of_read (document : Document) (respond : Respond)
    (b : ListCpp.Limit_order_book) (h : Respond.read document = some respond) :
    ListCpp.update_snapshot_doc document b = some (ListCpp.update_snapshot respond b) := by
  simp only [Respond.read] at h
  cases hts : (document.root.member "ts").bind Value.GetUint64 with
  | none => simp [hts] at h
  | some ts =>
    cases hch : (document.root.member "ch").bind Value.GetString with
    | none => simp [hts, hch] at h
    | some ch =>
      cases ha : (((document.root.member "tick").bind (fun t => t.member "asks")).bind
          Value.GetArray).bind read_levels with
      | none => simp [hts, hch, ha] at h
      | some asks =>
        cases hb : (((document.root.member "tick").bind (fun t => t.member "bids")).bind
            Value.GetArray).bind read_levels with
        | none => simp [hts, hch, ha, hb] at h
        | some bids =>
          simp only [hts, hch, ha, hb, Option.some.injEq] at h
          subst h
          have h1 : (tick_array document "asks").bind read_levels = some asks := ha
          have h2 : (tick_array document "bids").bind read_levels = some bids := hb
          simp only [ListCpp.update_snapshot_doc, hts, h1, h2, ListCpp.update_snapshot]

/-- The loop of `set_snapshot` over an array of readable pairs returns, and it
returns the pairs of non-zero quantity in the order received. -/
theorem read_nonzero_levels_of_readable :
    ∀ array : List Value, (∀ v ∈ array, readable_pair v) →
      read_nonzero_levels array = some (nonzero_pairs array) := by
  intro array
  induction array with
  | nil => intro _; rfl
  | cons v rest ih =>
    intro h
    have hrest := ih (fun w hw => h w (List.mem_cons_of_mem _ hw))
    obtain ⟨q, hq, hp⟩ := h v (List.mem_cons_self _ _)
    by_cases h0 : q = 0
    · cases hd : (v.elem 0).bind Value.GetDouble with
      | none =>
        simp [read_nonzero_levels, read_nonzero_level, nonzero_pairs, hq, h0, hd, hrest,
          List.filterMap_cons]
      | some p =>
        simp [read_nonzero_levels, read_nonzero_level, nonzero_pairs, hq, h0, hd, hrest,
          List.filterMap_cons]
    · obtain ⟨p, hd⟩ := hp h0
      simp [read_nonzero_levels, read_nonzero_level, nonzero_pairs, hq, h0, hd, hrest,
        List.filterMap_cons]

/-- The loop of `set_snapshot` returns only on an array of readable pairs. -/
theorem readable_of_read_nonzero_levels :
    ∀ (array : List Value) (ls : List Level), read_nonzero_levels array = some ls →
      ∀ v ∈ array, readable_pair v := by
  intro array
  induction array with
  | nil => intro ls _ v hv; simp at hv
  | cons w rest ih =>
    intro ls h v hv
    simp only [read_nonzero_levels] at h
    cases hw : read_nonzero_level w with
    | none => simp [hw] at h
    | some ow =>
      cases hr : read_nonzero_levels rest with
      | none => cases ow <;> simp [hw, hr] at h
      | some rs =>
        rcases List.mem_cons.1 hv with rfl | hv
        · simp only [read_nonzero_level] at hw
          cases hq : (v.elem 1).bind Value.GetInt with
          | none => simp [hq] at hw
          | some q =>
            refine ⟨q, hq, fun h0 => ?_⟩
            cases hd : (v.elem 0).bind Value.GetDouble with
            | none => simp [hq, hd, h0] at hw
            | some p => exact ⟨p, rfl⟩
        · exact ih rs hr v hv

/-- C6, as stated, fails: `check_data` tests that `ts` is present, not what it
is, and it never inspects the bids.  The snapshot message whose `ts` is the
string `"1"` and the one whose only bid is `["a", "b"]` are both accepted by
`check_data` as snapshots, and on each of them `set_snapshot` fails a getter
assertion (`GetUint64()`, `GetInt()`) and stores no ladder. -/
theorem unreadable_snapshot_counterexample :
    check_data string_ts_doc = some (Event.snapshot, "success") ∧
    ListCpp.set_snapshot_doc string_ts_doc ListCpp.empty = none ∧
    ListCpp.process_data string_ts_doc ListCpp.empty = none ∧
    check_data bad_bid_doc = some (Event.snapshot, "success") ∧
    ListCpp.set_snapshot_doc bad_bid_doc ListCpp.empty = none ∧
    ListCpp.process_data bad_bid_doc ListCpp.empty = none := by
  have h1 : check_data string_ts_doc = some (Event.snapshot, "success") := by decide
  have h2 : check_data bad_bid_doc = some (Event.snapshot, "success") := by decide
  have h3 : ∀ b, ListCpp.set_snapshot_doc string_ts_doc b = none := fun _ => rfl
  have h4 : ∀ b, ListCpp.set_snapshot_doc bad_bid_doc b = none := fun _ => rfl
  refine ⟨h1, h3 _, ?_, h2, h4 _, ?_⟩
  · simp only [ListCpp.process_data, h1, h3]
  · simp only [ListCpp.process_data, h2, h4]

/-- C6, amended (snapshot replace in the list-based book).  For every prior book
state and every snapshot message accepted by `check_data` that `set_snapshot`
can read (`ts` is an unsigned 64-bit integer, `ch` is a string, `tick.asks` and
`tick.bids` are arrays, and every element of both has an int quantity and,
unless that quantity is 0, a numeric price): `set_snapshot` returns, the stored
asks are exactly the ask pairs of the message whose quantity is not 0, in the
order received, and likewise the bids; nothing of the prior ladders remains, and
`get_time()` is the `ts` of the message.  The same holds of `process_data` on
the message. -/
theorem readable_snapshot_replaces (b : ListCpp.Limit_order_book) (document : Document)
    (msg : String) (ts : Nat) (ch : String) (asks bids : List Value)
    (hcheck : check_data document = some (Event.snapshot, msg))
    (hts : (document.root.member "ts").bind Value.GetUint64 = some ts)
    (hch : (document.root.member "ch").bind Value.GetString = some ch)
    (hasks : tick_array document "asks" = some asks)
    (hbids : tick_array document "bids" = some bids)
    (ha : ∀ v ∈ asks, readable_pair v) (hb : ∀ v ∈ bids, readable_pair v) :
    (∃ after, ListCpp.set_snapshot_doc document b = some after ∧
      after.asks = nonzero_pairs asks ∧ after.bids = nonzero_pairs bids ∧
      ListCpp.get_time after = ts ∧ after.chanel = ch) ∧
    (∃ after, ListCpp.process_data document b = some after ∧
      after.asks = nonzero_pairs asks ∧ after.bids = nonzero_pairs bids ∧
      ListCpp.get_time after = ts ∧ after.chanel = ch) := by
  have h1 : (tick_array document "asks").bind read_nonzero_levels = some (nonzero_pairs asks) := by
    rw [hasks, Option.some_bind]
    exact read_nonzero_levels_of_readable asks ha
  have h2 : (tick_array document "bids").bind read_nonzero_levels = some (nonzero_pairs bids) := by
    rw [hbids, Option.some_bind]
    exact read_nonzero_levels_of_readable bids hb
  have hno : ∀ array : List Value,
      push_nonzero [] (nonzero_pairs array) = nonzero_pairs array := by
    intro array
    rw [push_nonzero_eq, List.nil_append]
    apply List.filter_eq_self.2
    intro x hx
    simp only [nonzero_pairs, List.mem_filterMap] at hx
    obtain ⟨v, -, hv⟩ := hx
    cases hp : (v.elem 0).bind Value.GetDouble with
    | none => simp [hp] at hv
    | some p =>
      cases hq : (v.elem 1).bind Value.GetInt with
      | none => simp [hp, hq] at hv
      | some q =>
        simp only [hp, hq] at hv
        by_cases h0 : q = 0
        · simp [h0] at hv
        · simp only [if_neg h0, Option.some.injEq] at hv
          rw [← hv]
          simpa using h0
  have hdoc : ∀ c : ListCpp.Limit_order_book, ListCpp.set_snapshot_doc document c =
      some (ListCpp.set_snapshot ⟨ts, ch, nonzero_pairs asks, nonzero_pairs bids⟩ c) := by
    intro c
    simp only [ListCpp.set_snapshot_doc, hts, hch, h1, h2]
  constructor
  · refine ⟨_, hdoc b, ?_, ?_, rfl, rfl⟩
    · simp only [ListCpp.set_snapshot, hno]
    · simp only [ListCpp.set_snapshot, hno]
  · have hp : ListCpp.process_data document b =
        some (ListCpp.set_snapshot ⟨ts, ch, nonzero_pairs asks, nonzero_pairs bids⟩
          { b with event := Event.snapshot }) := by
      simp only [ListCpp.process_data, hcheck, hdoc]
    refine ⟨_, hp, ?_, ?_, rfl, rfl⟩
    · simp only [ListCpp.set_snapshot, hno]
    · simp only [ListCpp.set_snapshot, hno]

/-- Witness of the amended C6: the snapshot of scenario A applied to the book
left by another snapshot. -/
theorem readable_snapshot_replaces_witness :
    check_data scenario_A_doc = some (Event.snapshot, "success") ∧
    (∃ after, ListCpp.set_snapshot_doc scenario_A_doc
        (ListCpp.set_snapshot one_level_snapshot ListCpp.empty) = some after ∧
      after.asks = nonzero_pairs
        [.arr [.double 100.5, .int 3], .arr [.double 101.0, .int 5]] ∧
      after.bids = nonzero_pairs
        [.arr [.double 100.0, .int 2], .arr [.double 99.5, .int 4]] ∧
      ListCpp.get_time after = 1 ∧ after.chanel = "market.depth") ∧
    nonzero_pairs [.arr [.double 100.5, .int 3], .arr [.double 101.0, .int 5]] =
      [(100.5, 3), (101.0, 5)] := by
  have hcheck : check_data scenario_A_doc = some (Event.snapshot, "success") := by decide
  have ha : ∀ v ∈ [Value.arr [.double 100.5, .int 3], Value.arr [.double 101.0, .int 5]],
      readable_pair v := by
    intro v hv
    simp only [List.mem_cons, List.mem_singleton, List.not_mem_nil, or_false] at hv
    rcases hv with rfl | rfl
    · exact ⟨3, rfl, fun _ => ⟨100.5, rfl⟩⟩
    · exact ⟨5, rfl, fun _ => ⟨101.0, rfl⟩⟩
  have hb : ∀ v ∈ [Value.arr [.double 100.0, .int 2], Value.arr [.double 99.5, .int 4]],
      readable_pair v := by
    intro v hv
    simp only [List.mem_cons, List.mem_singleton, List.not_mem_nil, or_false] at hv
    rcases hv with rfl | rfl
    · exact ⟨2, rfl, fun _ => ⟨100.0, rfl⟩⟩
    · exact ⟨4, rfl, fun _ => ⟨99.5, rfl⟩⟩
  exact ⟨hcheck,
    (readable_snapshot_replaces (ListCpp.set_snapshot one_level_snapshot ListCpp.empty)
      scenario_A_doc "success" 1 "market.depth" _ _ hcheck rfl rfl rfl rfl ha hb).1, rfl⟩

end LOB
